/-
Verification of the gutenberg-back repository.

The repository is a FastAPI service (routers `books.py`, `analysis.py`) over a
two-table SQLAlchemy schema (`models/database.py`) with two utility modules:
an HTML/text fetcher for Project Gutenberg (`utils/gutenberg.py`) and a Groq
LLM wrapper (`utils/llm.py`).

This file shallowly embeds the data model and the request handlers.  External
effects (HTTP fetches, the LLM call, the scraped metadata, the clock) are
passed in explicitly as environment arguments; the database is an explicit
state value threaded through the handlers.  Python `json.dumps`/`json.loads`
are embedded as an executable serializer and recursive-descent parser over a
JSON value type (`Json`); JSON numbers are modelled as integers (the service
never constructs floating-point values itself, they only occur inside opaque
LLM output).
-/
import Mathlib

/-- JSON values as handled by Python's `json` module (numbers modelled as
integers; the fractional part of a parsed number is consumed but dropped). -/
inductive Json where
  | null : Json
  | bool : Bool → Json
  | num : Int → Json
  | str : String → Json
  | arr : List Json → Json
  | obj : List (String × Json) → Json

namespace Json

/-- Decimal digit character, `0`-`9`. -/
def decDigitChar (d : Nat) : Char := Char.ofNat (48 + d)

/-- Lowercase hex digit character, as produced by Python `json.dumps`
`\uXXXX` escapes. -/
def hexDigitChar (d : Nat) : Char :=
  if d < 10 then Char.ofNat (48 + d) else Char.ofNat (87 + d)

/-- Decimal digits of `n`, most significant first; `[]` for `0`. -/
def natDigits (n : Nat) : List Char :=
  if n = 0 then []
  else natDigits (n / 10) ++ [decDigitChar (n % 10)]
decreasing_by exact Nat.div_lt_self (Nat.pos_of_ne_zero (by assumption)) (by decide)

/-- Decimal representation of a natural number (Python `repr` of an int ≥ 0). -/
def natRepr (n : Nat) : List Char := if n = 0 then ['0'] else natDigits n

/-- Decimal representation of an integer (Python `repr` of an int). -/
def intRepr (n : Int) : List Char :=
  if n < 0 then '-' :: natRepr n.natAbs else natRepr n.natAbs

/-- `\uXXXX` escape (backslash, `u`, four lowercase hex digits). -/
def uEscape4 (n : Nat) : List Char :=
  ['\\', 'u', hexDigitChar (n / 4096 % 16), hexDigitChar (n / 256 % 16),
   hexDigitChar (n / 16 % 16), hexDigitChar (n % 16)]

/-- Escape of one character, following Python `json.dumps` with its default
`ensure_ascii=True`: `"` and `\` get a backslash escape, the five named
control escapes are used, all other characters outside printable ASCII are
`\uXXXX`-escaped (as a surrogate pair above `U+FFFF`). -/
def escapeChar (c : Char) : List Char :=
  if c = '"' then ['\\', '"']
  else if c = '\\' then ['\\', '\\']
  else if c = '\n' then ['\\', 'n']
  else if c = '\t' then ['\\', 't']
  else if c = '\r' then ['\\', 'r']
  else if c = '\x08' then ['\\', 'b']
  else if c = '\x0c' then ['\\', 'f']
  else if 0x20 ≤ c.toNat ∧ c.toNat ≤ 0x7e then [c]
  else if c.toNat < 0x10000 then uEscape4 c.toNat
  else uEscape4 (0xd800 + (c.toNat - 0x10000) / 0x400) ++
       uEscape4 (0xdc00 + (c.toNat - 0x10000) % 0x400)

/-- Escape every character of a string body. -/
def escapeList : List Char → List Char
  | [] => []
  | c :: rest => escapeChar c ++ escapeList rest

mutual

/-- Serialization of a JSON value, following Python `json.dumps` with its
default separators `", "` and `": "`. -/
def dumpsVal : Json → List Char
  | Json.null => ['n', 'u', 'l', 'l']
  | Json.bool true => ['t', 'r', 'u', 'e']
  | Json.bool false => ['f', 'a', 'l', 's', 'e']
  | Json.num n => intRepr n
  | Json.str s => '"' :: (escapeList s.data ++ ['"'])
  | Json.arr xs => '[' :: (dumpsList xs ++ [']'])
  | Json.obj kvs => '{' :: (dumpsObj kvs ++ ['}'])

/-- Array elements joined by `", "`. -/
def dumpsList : List Json → List Char
  | [] => []
  | [x] => dumpsVal x
  | x :: y :: rest => dumpsVal x ++ ',' :: ' ' :: dumpsList (y :: rest)

/-- Object entries `"key": value` joined by `", "`. -/
def dumpsObj : List (String × Json) → List Char
  | [] => []
  | [(k, v)] => '"' :: (escapeList k.data ++ '"' :: ':' :: ' ' :: dumpsVal v)
  | (k, v) :: item :: rest =>
    '"' :: (escapeList k.data ++ '"' :: ':' :: ' ' :: dumpsVal v ++
      ',' :: ' ' :: dumpsObj (item :: rest))

end

/-- Python `json.dumps` (on our value type). -/
def dumps (v : Json) : String := String.mk (dumpsVal v)

/-- JSON whitespace accepted by Python's `json` scanner. -/
def isJsonWs (c : Char) : Bool := c == ' ' || c == '\t' || c == '\n' || c == '\r'

/-- Drop leading JSON whitespace. -/
def skipJsonWs (cs : List Char) : List Char := cs.dropWhile isJsonWs

/-- Hex digit test (both cases), as in the `\uXXXX` escape of the scanner. -/
def isHexDigitB (c : Char) : Bool :=
  c.isDigit || ('a' ≤ c && c ≤ 'f') || ('A' ≤ c && c ≤ 'F')

/-- Numeric value of a hex digit character. -/
def hexVal (c : Char) : Nat :=
  if c.isDigit then c.toNat - 48
  else if 'a' ≤ c then c.toNat - 87
  else c.toNat - 55

/-- Scan a string body after the opening quote, handling backslash escapes;
returns the decoded string and the remainder after the closing quote.  Raw
control characters are rejected (Python `json.loads` strict mode). -/
def parseStringAux : List Char → List Char → Option (String × List Char)
  | [], _ => none
  | c :: rest, acc =>
    if c = '"' then some (String.mk acc.reverse, rest)
    else if c = '\\' then
      match rest with
      | [] => none
      | e :: rest2 =>
        if e = '"' ∨ e = '\\' ∨ e = '/' then parseStringAux rest2 (e :: acc)
        else if e = 'n' then parseStringAux rest2 ('\n' :: acc)
        else if e = 't' then parseStringAux rest2 ('\t' :: acc)
        else if e = 'r' then parseStringAux rest2 ('\r' :: acc)
        else if e = 'b' then parseStringAux rest2 ('\x08' :: acc)
        else if e = 'f' then parseStringAux rest2 ('\x0c' :: acc)
        else if e = 'u' then
          match rest2 with
          | h1 :: h2 :: h3 :: h4 :: rest3 =>
            if isHexDigitB h1 && isHexDigitB h2 && isHexDigitB h3 && isHexDigitB h4 then
              parseStringAux rest3
                (Char.ofNat (hexVal h1 * 4096 + hexVal h2 * 256 + hexVal h3 * 16 + hexVal h4) :: acc)
            else none
          | _ => none
        else none
    else if c.toNat < 0x20 then none
    else parseStringAux rest (c :: acc)

/-- Longest leading run of decimal digits, and the remainder. -/
def parseDigits : List Char → List Char × List Char
  | [] => ([], [])
  | c :: rest =>
    if c.isDigit then
      let p := parseDigits rest
      (c :: p.1, p.2)
    else ([], c :: rest)

/-- Value of a digit run. -/
def digitsVal (ds : List Char) : Nat :=
  ds.foldl (fun n c => 10 * n + (c.toNat - 48)) 0

/-- Integer part of a JSON number: `0` or a run with nonzero leading digit
(the number grammar `0|[1-9][0-9]*` of Python's `NUMBER_RE`). -/
def parseIntDigits : List Char → Option (Nat × List Char)
  | [] => none
  | c :: rest =>
    if c = '0' then some (0, rest)
    else if c.isDigit then
      let p := parseDigits rest
      some (digitsVal (c :: p.1), p.2)
    else none

/-- Consume an optional fraction `.[0-9]+`, else nothing. -/
def skipFrac (cs : List Char) : List Char :=
  match cs with
  | [] => []
  | c :: rest =>
    if c = '.' then
      match parseDigits rest with
      | ([], _) => c :: rest
      | (_ :: _, r) => r
    else c :: rest

/-- Consume an optional exponent `[eE][+-]?[0-9]+`, else nothing. -/
def skipExp (cs : List Char) : List Char :=
  match cs with
  | [] => []
  | c :: rest =>
    if c = 'e' ∨ c = 'E' then
      let rest2 := match rest with
        | [] => ([] : List Char)
        | s :: r2 => if s = '+' ∨ s = '-' then r2 else s :: r2
      match parseDigits rest2 with
      | ([], _) => c :: rest
      | (_ :: _, r) => r
    else c :: rest

/-- Parse a JSON number (integer value; fraction and exponent consumed but
dropped, see the note on `Json`). -/
def parseNumber (cs : List Char) : Option (Json × List Char) :=
  match cs with
  | [] => none
  | c :: rest =>
    if c = '-' then
      match parseIntDigits rest with
      | some (n, r) => some (Json.num (-(n : Int)), skipExp (skipFrac r))
      | none => none
    else
      match parseIntDigits (c :: rest) with
      | some (n, r) => some (Json.num (n : Int), skipExp (skipFrac r))
      | none => none

/-- Match an exact literal; `some` holds the remainder. -/
def stripChars : List Char → List Char → Option (List Char)
  | [], cs => some cs
  | _ :: _, [] => none
  | p :: ps, c :: cs => if c = p then stripChars ps cs else none

/-- Expect the tail of a keyword (`null`, `true`, `false`). -/
def expectLit (lit : List Char) (cs : List Char) (v : Json) : Option (Json × List Char) :=
  match stripChars lit cs with
  | some r => some (v, r)
  | none => none

mutual

/-- Fuel-indexed recursive-descent parser for one JSON value; leading
whitespace is skipped, the remainder after the value is returned. -/
def parseVal : Nat → List Char → Option (Json × List Char)
  | 0, _ => none
  | f + 1, cs =>
    match skipJsonWs cs with
    | [] => none
    | c :: cs2 =>
      if c = 'n' then expectLit ['u', 'l', 'l'] cs2 Json.null
      else if c = 't' then expectLit ['r', 'u', 'e'] cs2 (Json.bool true)
      else if c = 'f' then expectLit ['a', 'l', 's', 'e'] cs2 (Json.bool false)
      else if c = '"' then
        match parseStringAux cs2 [] with
        | some (s, r) => some (Json.str s, r)
        | none => none
      else if c = '[' then
        match skipJsonWs cs2 with
        | [] => parseArrElems f cs2 []
        | d :: r => if d = ']' then some (Json.arr [], r) else parseArrElems f cs2 []
      else if c = '{' then
        match skipJsonWs cs2 with
        | [] => parseObjItems f cs2 []
        | d :: r => if d = '}' then some (Json.obj [], r) else parseObjItems f cs2 []
      else parseNumber (c :: cs2)

/-- Elements of a non-empty array, after the opening bracket. -/
def parseArrElems : Nat → List Char → List Json → Option (Json × List Char)
  | 0, _, _ => none
  | f + 1, cs, acc =>
    match parseVal f cs with
    | none => none
    | some (v, r) =>
      match skipJsonWs r with
      | [] => none
      | d :: r2 =>
        if d = ',' then parseArrElems f r2 (acc ++ [v])
        else if d = ']' then some (Json.arr (acc ++ [v]), r2)
        else none

/-- Entries of a non-empty object, after the opening brace. -/
def parseObjItems : Nat → List Char → List (String × Json) → Option (Json × List Char)
  | 0, _, _ => none
  | f + 1, cs, acc =>
    match skipJsonWs cs with
    | [] => none
    | c :: cs2 =>
      if c = '"' then
        match parseStringAux cs2 [] with
        | none => none
        | some (k, r) =>
          match skipJsonWs r with
          | [] => none
          | d :: r2 =>
            if d = ':' then
              match parseVal f r2 with
              | none => none
              | some (v, r3) =>
                match skipJsonWs r3 with
                | [] => none
                | d2 :: r4 =>
                  if d2 = ',' then parseObjItems f r4 (acc ++ [(k, v)])
                  else if d2 = '}' then some (Json.obj (acc ++ [(k, v)]), r4)
                  else none
            else none
      else none

end

/-- Python `json.loads`: parse one value, then require only whitespace to
remain. -/
def loads (s : String) : Option Json :=
  match parseVal (2 * s.data.length + 1) s.data with
  | some (v, r) => if skipJsonWs r = [] then some v else none
  | none => none

mutual

/-- Fuel sufficient to parse the serialization of a value. -/
def fuelVal : Json → Nat
  | Json.null => 1
  | Json.bool _ => 1
  | Json.num _ => 1
  | Json.str _ => 1
  | Json.arr xs => 1 + fuelList xs
  | Json.obj kvs => 1 + fuelObj kvs

/-- Fuel sufficient for the element loop of an array. -/
def fuelList : List Json → Nat
  | [] => 1
  | x :: rest => 1 + fuelVal x + fuelList rest

/-- Fuel sufficient for the entry loop of an object. -/
def fuelObj : List (String × Json) → Nat
  | [] => 1
  | kv :: rest => 1 + fuelVal kv.2 + fuelObj rest

end

/-- A continuation after a serialized number: nothing that could extend the
number match. -/
def numSafeB : List Char → Bool
  | [] => true
  | c :: _ => !(c.isDigit || c = '.' || c = 'e' || c = 'E')

/-- A continuation whose head cannot extend a digit run. -/
def headNotDigit : List Char → Bool
  | [] => true
  | c :: _ => !c.isDigit

theorem skipJsonWs_nil : skipJsonWs [] = [] := rfl

theorem skipJsonWs_cons_of_not_ws {c : Char} (h : isJsonWs c = false) (cs : List Char) :
    skipJsonWs (c :: cs) = c :: cs := by
  simp [skipJsonWs, List.dropWhile_cons, h]

theorem skipJsonWs_append_ws {ws : List Char} (h : ∀ c ∈ ws, isJsonWs c = true)
    (cs : List Char) : skipJsonWs (ws ++ cs) = skipJsonWs cs := by
  induction ws with
  | nil => simp
  | cons c t ih =>
    have hc : isJsonWs c = true := h c (by simp)
    simp only [List.cons_append, skipJsonWs, List.dropWhile_cons, hc, if_true]
    exact ih fun x hx => h x (by simp [hx])

/-- All the character facts needed about a decimal digit character. -/
theorem decDigitChar_facts (d : Nat) (h : d < 10) :
    (decDigitChar d).isDigit = true ∧ isJsonWs (decDigitChar d) = false ∧
    decDigitChar d ≠ 'n' ∧ decDigitChar d ≠ 't' ∧ decDigitChar d ≠ 'f' ∧
    decDigitChar d ≠ '"' ∧ decDigitChar d ≠ '[' ∧ decDigitChar d ≠ '{' ∧
    decDigitChar d ≠ ']' ∧ decDigitChar d ≠ '}' ∧ decDigitChar d ≠ '-' ∧
    (d ≠ 0 → decDigitChar d ≠ '0') ∧ (d = 0 → decDigitChar d = '0') := by
  interval_cases d <;> exact (by decide)

theorem hexDigitChar_isHex (d : Nat) (h : d < 16) : isHexDigitB (hexDigitChar d) = true := by
  interval_cases d <;> decide

/-- Shape of `natDigits n` for `n ≠ 0`: a nonzero leading digit followed by
digits. -/
theorem natDigits_spec (n : Nat) (hn : n ≠ 0) :
    ∃ d t, d < 10 ∧ d ≠ 0 ∧ natDigits n = decDigitChar d :: t ∧
      ∀ x ∈ t, x.isDigit = true := by
  induction n using Nat.strong_induction_on with
  | _ n ih =>
  rw [natDigits, if_neg hn]
  by_cases h10 : n / 10 = 0
  · have hlt : n < 10 := by omega
    have hmod : n % 10 = n := Nat.mod_eq_of_lt hlt
    refine ⟨n, [], hlt, hn, ?_, by simp⟩
    rw [natDigits, if_pos h10, hmod]
    simp
  · obtain ⟨d, t, hd10, hd0, heq, hdig⟩ :=
      ih (n / 10) (Nat.div_lt_self (Nat.pos_of_ne_zero hn) (by decide)) h10
    refine ⟨d, t ++ [decDigitChar (n % 10)], hd10, hd0, by simp [heq], ?_⟩
    intro x hx
    rcases List.mem_append.mp hx with hx | hx
    · exact hdig x hx
    · simp only [List.mem_singleton] at hx
      subst hx
      exact (decDigitChar_facts _ (Nat.mod_lt _ (by decide))).1

/-- Shape of `natRepr n`: a digit head (which is `'0'` exactly for `n = 0`,
with empty tail there) followed by digits. -/
theorem natRepr_spec (n : Nat) :
    ∃ d t, d < 10 ∧ natRepr n = decDigitChar d :: t ∧
      (∀ x ∈ t, x.isDigit = true) ∧ (d = 0 → t = []) ∧ (n ≠ 0 → d ≠ 0) := by
  by_cases hn : n = 0
  · exact ⟨0, [], by decide, by simp [hn, natRepr, decDigitChar], by simp, fun _ => rfl,
      fun h => absurd hn h⟩
  · obtain ⟨d, t, hd10, hd0, heq, hdig⟩ := natDigits_spec n hn
    exact ⟨d, t, hd10, by simp [natRepr, hn, heq], hdig, fun h => absurd h hd0,
      fun _ => hd0⟩

theorem parseDigits_append {ds rest : List Char} (hds : ∀ c ∈ ds, c.isDigit = true)
    (hrest : headNotDigit rest = true) : parseDigits (ds ++ rest) = (ds, rest) := by
  induction ds with
  | nil =>
    cases rest with
    | nil => rfl
    | cons c r =>
      simp only [headNotDigit, Bool.not_eq_true'] at hrest
      simp [parseDigits, hrest]
  | cons c t ih =>
    have hc : c.isDigit = true := hds c (by simp)
    simp only [List.cons_append, parseDigits, hc, if_true, List.append_eq]
    rw [ih fun x hx => hds x (by simp [hx])]

theorem numSafeB_headNotDigit {rest : List Char} (h : numSafeB rest = true) :
    headNotDigit rest = true := by
  cases rest with
  | nil => rfl
  | cons c r =>
    simp only [numSafeB, Bool.not_eq_true', Bool.or_eq_false_iff, decide_eq_false_iff_not] at h
    simp [headNotDigit, h.1.1.1]

theorem parseIntDigits_natRepr (n : Nat) {rest : List Char}
    (hrest : headNotDigit rest = true) :
    ∃ m, parseIntDigits (natRepr n ++ rest) = some (m, rest) := by
  obtain ⟨d, t, hd10, heq, hdig, hzt, _⟩ := natRepr_spec n
  rw [heq]
  by_cases hd0 : d = 0
  · have ht : t = [] := hzt hd0
    have hc : decDigitChar d = '0' := (decDigitChar_facts d hd10).2.2.2.2.2.2.2.2.2.2.2.2 hd0
    subst ht
    simp [parseIntDigits, hc]
  · have hc0 : decDigitChar d ≠ '0' :=
      (decDigitChar_facts d hd10).2.2.2.2.2.2.2.2.2.2.2.1 hd0
    have hcd : (decDigitChar d).isDigit = true := (decDigitChar_facts d hd10).1
    refine ⟨digitsVal (decDigitChar d :: t), ?_⟩
    simp only [List.cons_append, parseIntDigits, if_neg hc0, hcd, if_true]
    rw [parseDigits_append hdig hrest]

theorem skipFrac_eq {rest : List Char} (h : numSafeB rest = true) :
    skipFrac rest = rest := by
  cases rest with
  | nil => rfl
  | cons c r =>
    simp only [numSafeB, Bool.not_eq_true', Bool.or_eq_false_iff, decide_eq_false_iff_not] at h
    simp [skipFrac, h.1.1.2]

theorem skipExp_eq {rest : List Char} (h : numSafeB rest = true) :
    skipExp rest = rest := by
  cases rest with
  | nil => rfl
  | cons c r =>
    simp only [numSafeB, Bool.not_eq_true', Bool.or_eq_false_iff, decide_eq_false_iff_not] at h
    simp [skipExp, h.1.2, h.2]

/-- Parsing the serialization of an integer consumes exactly it. -/
theorem parseNumber_intRepr (n : Int) {rest : List Char} (hrest : numSafeB rest = true) :
    ∃ m, parseNumber (intRepr n ++ rest) = some (Json.num m, rest) := by
  have hnd := numSafeB_headNotDigit hrest
  by_cases hneg : n < 0
  · obtain ⟨m, hm⟩ := parseIntDigits_natRepr n.natAbs hnd
    refine ⟨-(m : Int), ?_⟩
    simp only [intRepr, if_pos hneg, List.cons_append, parseNumber]
    simp [hm, skipFrac_eq hrest, skipExp_eq hrest]
  · obtain ⟨d, t, hd10, heq, _, _, _⟩ := natRepr_spec n.natAbs
    obtain ⟨m, hm⟩ := parseIntDigits_natRepr n.natAbs hnd
    have hcm : decDigitChar d ≠ '-' := (decDigitChar_facts d hd10).2.2.2.2.2.2.2.2.2.2.1
    refine ⟨(m : Int), ?_⟩
    rw [heq] at hm
    simp only [List.cons_append] at hm
    simp only [intRepr, if_neg hneg, heq, List.cons_append, parseNumber, if_neg hcm, hm,
      skipFrac_eq hrest, skipExp_eq hrest]

theorem psa_close (rest acc : List Char) :
    parseStringAux ('"' :: rest) acc = some (String.mk acc.reverse, rest) := by
  rw [parseStringAux.eq_def]; simp

theorem psa_esc {e : Char} {out : Char} (rest acc : List Char)
    (h : (e = '"' ∧ out = '"') ∨ (e = '\\' ∧ out = '\\') ∨ (e = 'n' ∧ out = '\n') ∨
      (e = 't' ∧ out = '\t') ∨ (e = 'r' ∧ out = '\r') ∨ (e = 'b' ∧ out = '\x08') ∨
      (e = 'f' ∧ out = '\x0c')) :
    parseStringAux ('\\' :: e :: rest) acc = parseStringAux rest (out :: acc) := by
  rcases h with ⟨he, ho⟩ | ⟨he, ho⟩ | ⟨he, ho⟩ | ⟨he, ho⟩ | ⟨he, ho⟩ | ⟨he, ho⟩ | ⟨he, ho⟩ <;>
    subst he <;> subst ho <;> (rw [parseStringAux.eq_def]; simp)

theorem psa_safe {c : Char} (h1 : c ≠ '"') (h2 : c ≠ '\\') (h3 : ¬ c.toNat < 0x20)
    (rest acc : List Char) :
    parseStringAux (c :: rest) acc = parseStringAux rest (c :: acc) := by
  rw [parseStringAux.eq_def]; simp [h1, h2, h3]

/-- A `\uXXXX` escape is consumed as one decoded character. -/
theorem parseStringAux_uEscape (m : Nat) (tl acc : List Char) :
    ∃ ch, parseStringAux (uEscape4 m ++ tl) acc = parseStringAux tl (ch :: acc) := by
  have h1 := hexDigitChar_isHex (m / 4096 % 16) (Nat.mod_lt _ (by decide))
  have h2 := hexDigitChar_isHex (m / 256 % 16) (Nat.mod_lt _ (by decide))
  have h3 := hexDigitChar_isHex (m / 16 % 16) (Nat.mod_lt _ (by decide))
  have h4 := hexDigitChar_isHex (m % 16) (Nat.mod_lt _ (by decide))
  refine ⟨Char.ofNat (hexVal (hexDigitChar (m / 4096 % 16)) * 4096 +
    hexVal (hexDigitChar (m / 256 % 16)) * 256 +
    hexVal (hexDigitChar (m / 16 % 16)) * 16 + hexVal (hexDigitChar (m % 16))), ?_⟩
  rw [uEscape4, List.cons_append, List.cons_append, List.cons_append, List.cons_append,
    List.cons_append, List.cons_append, List.nil_append, parseStringAux.eq_def]
  simp [h1, h2, h3, h4]

/-- The serialized body of a string followed by the closing quote parses,
leaving exactly the continuation. -/
theorem parseStringAux_escapeList (l : List Char) : ∀ tl acc,
    ∃ p, parseStringAux (escapeList l ++ '"' :: tl) acc = some (p, tl) := by
  induction l with
  | nil => intro tl acc; exact ⟨String.mk acc.reverse, by simp [escapeList, psa_close]⟩
  | cons c t ih =>
    intro tl acc
    simp only [escapeList, List.append_assoc]
    by_cases h1 : c = '"'
    · rw [show escapeChar c = ['\\', '"'] by rw [escapeChar, if_pos h1]]
      simp only [List.cons_append, List.nil_append]
      rw [psa_esc _ _ (Or.inl ⟨rfl, rfl⟩)]
      exact ih tl _
    · by_cases h2 : c = '\\'
      · rw [show escapeChar c = ['\\', '\\'] by rw [escapeChar, if_neg h1, if_pos h2]]
        simp only [List.cons_append, List.nil_append]
        rw [psa_esc _ _ (Or.inr (Or.inl ⟨rfl, rfl⟩))]
        exact ih tl _
      · by_cases h3 : c = '\n'
        · rw [show escapeChar c = ['\\', 'n'] by
            rw [escapeChar, if_neg h1, if_neg h2, if_pos h3]]
          simp only [List.cons_append, List.nil_append]
          rw [psa_esc _ _ (Or.inr (Or.inr (Or.inl ⟨rfl, rfl⟩)))]
          exact ih tl _
        · by_cases h4 : c = '\t'
          · rw [show escapeChar c = ['\\', 't'] by
              rw [escapeChar, if_neg h1, if_neg h2, if_neg h3, if_pos h4]]
            simp only [List.cons_append, List.nil_append]
            rw [psa_esc _ _ (Or.inr (Or.inr (Or.inr (Or.inl ⟨rfl, rfl⟩))))]
            exact ih tl _
          · by_cases h5 : c = '\r'
            · rw [show escapeChar c = ['\\', 'r'] by
                rw [escapeChar, if_neg h1, if_neg h2, if_neg h3, if_neg h4, if_pos h5]]
              simp only [List.cons_append, List.nil_append]
              rw [psa_esc _ _ (Or.inr (Or.inr (Or.inr (Or.inr (Or.inl ⟨rfl, rfl⟩)))))]
              exact ih tl _
            · by_cases h6 : c = '\x08'
              · rw [show escapeChar c = ['\\', 'b'] by
                  rw [escapeChar, if_neg h1, if_neg h2, if_neg h3, if_neg h4, if_neg h5,
                    if_pos h6]]
                simp only [List.cons_append, List.nil_append]
                rw [psa_esc _ _ (Or.inr (Or.inr (Or.inr (Or.inr (Or.inr
                  (Or.inl ⟨rfl, rfl⟩))))))]
                exact ih tl _
              · by_cases h7 : c = '\x0c'
                · rw [show escapeChar c = ['\\', 'f'] by
                    rw [escapeChar, if_neg h1, if_neg h2, if_neg h3, if_neg h4, if_neg h5,
                      if_neg h6, if_pos h7]]
                  simp only [List.cons_append, List.nil_append]
                  rw [psa_esc _ _ (Or.inr (Or.inr (Or.inr (Or.inr (Or.inr (Or.inr
                    ⟨rfl, rfl⟩))))))]
                  exact ih tl _
                · by_cases h8 : 0x20 ≤ c.toNat ∧ c.toNat ≤ 0x7e
                  · rw [show escapeChar c = [c] by
                      rw [escapeChar, if_neg h1, if_neg h2, if_neg h3, if_neg h4, if_neg h5,
                        if_neg h6, if_neg h7, if_pos h8]]
                    simp only [List.cons_append, List.nil_append]
                    rw [psa_safe h1 h2 (by omega)]
                    exact ih tl _
                  · by_cases h9 : c.toNat < 0x10000
                    · rw [show escapeChar c = uEscape4 c.toNat by
                        rw [escapeChar, if_neg h1, if_neg h2, if_neg h3, if_neg h4,
                          if_neg h5, if_neg h6, if_neg h7, if_neg h8, if_pos h9]]
                      obtain ⟨ch, hch⟩ :=
                        parseStringAux_uEscape c.toNat (escapeList t ++ '"' :: tl) acc
                      rw [hch]
                      exact ih tl _
                    · rw [show escapeChar c =
                          uEscape4 (0xd800 + (c.toNat - 0x10000) / 0x400) ++
                          uEscape4 (0xdc00 + (c.toNat - 0x10000) % 0x400) by
                        rw [escapeChar, if_neg h1, if_neg h2, if_neg h3, if_neg h4,
                          if_neg h5, if_neg h6, if_neg h7, if_neg h8, if_neg h9]]
                      rw [List.append_assoc]
                      obtain ⟨ch, hch⟩ := parseStringAux_uEscape
                        (0xd800 + (c.toNat - 0x10000) / 0x400)
                        (uEscape4 (0xdc00 + (c.toNat - 0x10000) % 0x400) ++
                          (escapeList t ++ '"' :: tl)) acc
                      rw [hch]
                      obtain ⟨ch2, hch2⟩ := parseStringAux_uEscape
                        (0xdc00 + (c.toNat - 0x10000) % 0x400)
                        (escapeList t ++ '"' :: tl) (ch :: acc)
                      rw [hch2]
                      exact ih tl _

/-- The head character of any serialized value: never whitespace, never a
closing bracket, and the heads that drive the parser dispatch. -/
theorem dumpsVal_head (v : Json) :
    ∃ c t, dumpsVal v = c :: t ∧ isJsonWs c = false ∧ c ≠ ']' ∧ c ≠ '}' ∧ c ≠ ',' := by
  cases v with
  | null => exact ⟨'n', _, rfl, by decide, by decide, by decide, by decide⟩
  | bool b => cases b with
    | true => exact ⟨'t', _, rfl, by decide, by decide, by decide, by decide⟩
    | false => exact ⟨'f', _, rfl, by decide, by decide, by decide, by decide⟩
  | num n =>
    by_cases hneg : n < 0
    · exact ⟨'-', natRepr n.natAbs, by simp [dumpsVal, intRepr, hneg], by decide, by decide,
        by decide, by decide⟩
    · obtain ⟨d, t, hd10, heq, _, _, _⟩ := natRepr_spec n.natAbs
      have hf := decDigitChar_facts d hd10
      exact ⟨decDigitChar d, t, by simp [dumpsVal, intRepr, hneg, heq], hf.2.1,
        hf.2.2.2.2.2.2.2.2.1, hf.2.2.2.2.2.2.2.2.2.1, by
          have := hf.1
          intro hc
          rw [hc] at this
          exact absurd this (by decide)⟩
  | str s => exact ⟨'"', _, rfl, by decide, by decide, by decide, by decide⟩
  | arr xs => exact ⟨'[', _, rfl, by decide, by decide, by decide, by decide⟩
  | obj kvs => exact ⟨'{', _, rfl, by decide, by decide, by decide, by decide⟩

theorem fuelVal_pos (v : Json) : 1 ≤ fuelVal v := by
  cases v <;> simp [fuelVal]

theorem dumpsList_cons_ex (x : Json) (xs : List Json) :
    ∃ s, dumpsList (x :: xs) = dumpsVal x ++ s := by
  cases xs with
  | nil => exact ⟨[], by simp [dumpsList]⟩
  | cons y ys => exact ⟨_, rfl⟩

theorem dumpsObj_head (kv : String × Json) (kvs : List (String × Json)) :
    ∃ t, dumpsObj (kv :: kvs) = '"' :: t := by
  obtain ⟨k, v⟩ := kv
  cases kvs with
  | nil => exact ⟨_, rfl⟩
  | cons kv2 kvs2 => exact ⟨_, rfl⟩

mutual

/-- Parsing the serialization of a value, after optional whitespace and
before a continuation that cannot extend a number, consumes exactly the
serialization. -/
theorem parseVal_dumps (v : Json) : ∀ (fuel : Nat) (ws rest : List Char),
    fuelVal v ≤ fuel → (∀ c ∈ ws, isJsonWs c = true) → numSafeB rest = true →
    ∃ w, parseVal fuel (ws ++ (dumpsVal v ++ rest)) = some (w, rest) := by
  intro fuel ws rest hf hws hrest
  obtain ⟨f, rfl⟩ : ∃ f, fuel = f + 1 :=
    ⟨fuel - 1, by have := fuelVal_pos v; omega⟩
  cases v with
  | null =>
    refine ⟨Json.null, ?_⟩
    have hskip : skipJsonWs (ws ++ (dumpsVal Json.null ++ rest)) =
        'n' :: 'u' :: 'l' :: 'l' :: rest := by
      rw [skipJsonWs_append_ws hws]
      exact skipJsonWs_cons_of_not_ws (by decide) _
    rw [parseVal, hskip]
    simp [expectLit, stripChars]
  | bool b =>
    cases b with
    | true =>
      refine ⟨Json.bool true, ?_⟩
      have hskip : skipJsonWs (ws ++ (dumpsVal (Json.bool true) ++ rest)) =
          't' :: 'r' :: 'u' :: 'e' :: rest := by
        rw [skipJsonWs_append_ws hws]
        exact skipJsonWs_cons_of_not_ws (by decide) _
      rw [parseVal, hskip]
      simp [expectLit, stripChars]
    | false =>
      refine ⟨Json.bool false, ?_⟩
      have hskip : skipJsonWs (ws ++ (dumpsVal (Json.bool false) ++ rest)) =
          'f' :: 'a' :: 'l' :: 's' :: 'e' :: rest := by
        rw [skipJsonWs_append_ws hws]
        exact skipJsonWs_cons_of_not_ws (by decide) _
      rw [parseVal, hskip]
      simp [expectLit, stripChars]
  | num n =>
    obtain ⟨m, hm⟩ := parseNumber_intRepr n hrest
    refine ⟨Json.num m, ?_⟩
    by_cases hneg : n < 0
    · have heqd : dumpsVal (Json.num n) = '-' :: natRepr n.natAbs := by
        simp [dumpsVal, intRepr, hneg]
      have hskip : skipJsonWs (ws ++ (dumpsVal (Json.num n) ++ rest)) =
          '-' :: (natRepr n.natAbs ++ rest) := by
        rw [heqd, skipJsonWs_append_ws hws, List.cons_append]
        exact skipJsonWs_cons_of_not_ws (by decide) _
      rw [parseVal, hskip]
      rw [intRepr, if_pos hneg, List.cons_append] at hm
      simpa using hm
    · obtain ⟨d, t, hd10, heq, _, _, _⟩ := natRepr_spec n.natAbs
      have hfacts := decDigitChar_facts d hd10
      have heqd : dumpsVal (Json.num n) = decDigitChar d :: t := by
        simp [dumpsVal, intRepr, hneg, heq]
      have hskip : skipJsonWs (ws ++ (dumpsVal (Json.num n) ++ rest)) =
          decDigitChar d :: (t ++ rest) := by
        rw [heqd, skipJsonWs_append_ws hws, List.cons_append]
        exact skipJsonWs_cons_of_not_ws hfacts.2.1 _
      rw [parseVal, hskip]
      rw [intRepr, if_neg hneg, heq, List.cons_append] at hm
      simp only [if_neg hfacts.2.2.1, if_neg hfacts.2.2.2.1, if_neg hfacts.2.2.2.2.1,
        if_neg hfacts.2.2.2.2.2.1, if_neg hfacts.2.2.2.2.2.2.1,
        if_neg hfacts.2.2.2.2.2.2.2.1]
      exact hm
  | str s =>
    obtain ⟨p, hp⟩ := parseStringAux_escapeList s.data rest []
    refine ⟨Json.str p, ?_⟩
    have hskip : skipJsonWs (ws ++ (dumpsVal (Json.str s) ++ rest)) =
        '"' :: (escapeList s.data ++ '"' :: rest) := by
      rw [skipJsonWs_append_ws hws]
      have : dumpsVal (Json.str s) ++ rest = '"' :: (escapeList s.data ++ '"' :: rest) := by
        simp [dumpsVal]
      rw [this]
      exact skipJsonWs_cons_of_not_ws (by decide) _
    rw [parseVal, hskip]
    simp [hp]
  | arr xs =>
    cases xs with
    | nil =>
      refine ⟨Json.arr [], ?_⟩
      have hskip : skipJsonWs (ws ++ (dumpsVal (Json.arr []) ++ rest)) =
          '[' :: ']' :: rest := by
        rw [skipJsonWs_append_ws hws]
        have : dumpsVal (Json.arr []) ++ rest = '[' :: ']' :: rest := by
          simp [dumpsVal, dumpsList]
        rw [this]
        exact skipJsonWs_cons_of_not_ws (by decide) _
      rw [parseVal, hskip]
      simp [skipJsonWs_cons_of_not_ws (c := ']') (by decide)]
    | cons x xs2 =>
      have hfl : fuelList (x :: xs2) ≤ f := by
        simp only [fuelVal] at hf; omega
      obtain ⟨w, hw⟩ := parseArrElems_dumps x xs2 f [] rest [] hfl (by simp) hrest
      refine ⟨w, ?_⟩
      obtain ⟨s, hs⟩ := dumpsList_cons_ex x xs2
      obtain ⟨cx, tx, hx, hxws, hxr, _, _⟩ := dumpsVal_head x
      have harg : dumpsVal (Json.arr (x :: xs2)) ++ rest =
          '[' :: (dumpsList (x :: xs2) ++ ']' :: rest) := by
        simp [dumpsVal]
      have hhd : dumpsList (x :: xs2) ++ ']' :: rest = cx :: (tx ++ s ++ ']' :: rest) := by
        rw [hs, hx]; simp
      have hskip : skipJsonWs (ws ++ (dumpsVal (Json.arr (x :: xs2)) ++ rest)) =
          '[' :: (dumpsList (x :: xs2) ++ ']' :: rest) := by
        rw [skipJsonWs_append_ws hws, harg]
        exact skipJsonWs_cons_of_not_ws (by decide) _
      rw [parseVal, hskip]
      have hskip2 : skipJsonWs (dumpsList (x :: xs2) ++ ']' :: rest) =
          cx :: (tx ++ s ++ ']' :: rest) := by
        rw [hhd]; exact skipJsonWs_cons_of_not_ws hxws _
      simp only [hskip2]
      simp only [if_neg (by decide : ¬ ('[' : Char) = 'n'),
        if_neg (by decide : ¬ ('[' : Char) = 't'), if_neg (by decide : ¬ ('[' : Char) = 'f'),
        if_neg (by decide : ¬ ('[' : Char) = '"'), if_pos rfl, if_neg hxr]
      simpa using hw
  | obj kvs =>
    cases kvs with
    | nil =>
      refine ⟨Json.obj [], ?_⟩
      have hskip : skipJsonWs (ws ++ (dumpsVal (Json.obj []) ++ rest)) =
          '{' :: '}' :: rest := by
        rw [skipJsonWs_append_ws hws]
        have : dumpsVal (Json.obj []) ++ rest = '{' :: '}' :: rest := by
          simp [dumpsVal, dumpsObj]
        rw [this]
        exact skipJsonWs_cons_of_not_ws (by decide) _
      rw [parseVal, hskip]
      simp [skipJsonWs_cons_of_not_ws (c := '}') (by decide)]
    | cons kv kvs2 =>
      have hfl : fuelObj ((kv.1, kv.2) :: kvs2) ≤ f := by
        rw [Prod.mk.eta]; simp only [fuelVal] at hf; omega
      obtain ⟨w, hw⟩ := parseObjItems_dumps kv.1 kv.2 kvs2 f [] rest [] hfl (by simp) hrest
      rw [Prod.mk.eta] at hw
      refine ⟨w, ?_⟩
      obtain ⟨tk, htk⟩ := dumpsObj_head kv kvs2
      have harg : dumpsVal (Json.obj (kv :: kvs2)) ++ rest =
          '{' :: (dumpsObj (kv :: kvs2) ++ '}' :: rest) := by
        simp [dumpsVal]
      have hskip : skipJsonWs (ws ++ (dumpsVal (Json.obj (kv :: kvs2)) ++ rest)) =
          '{' :: (dumpsObj (kv :: kvs2) ++ '}' :: rest) := by
        rw [skipJsonWs_append_ws hws, harg]
        exact skipJsonWs_cons_of_not_ws (by decide) _
      rw [parseVal, hskip]
      have hskip2 : skipJsonWs (dumpsObj (kv :: kvs2) ++ '}' :: rest) =
          '"' :: (tk ++ '}' :: rest) := by
        rw [htk, List.cons_append]
        exact skipJsonWs_cons_of_not_ws (by decide) _
      simp only [hskip2]
      simp only [if_neg (by decide : ¬ ('{' : Char) = 'n'),
        if_neg (by decide : ¬ ('{' : Char) = 't'), if_neg (by decide : ¬ ('{' : Char) = 'f'),
        if_neg (by decide : ¬ ('{' : Char) = '"'), if_neg (by decide : ¬ ('{' : Char) = '['),
        if_pos rfl, if_neg (by decide : ¬ ('"' : Char) = '}')]
      simpa using hw
termination_by sizeOf v
decreasing_by
  all_goals subst_vars
  all_goals try rcases kv with ⟨k9, v9⟩
  all_goals try simp
  all_goals omega

/-- The element loop of the parser consumes the serialized elements of a
non-empty array together with the closing bracket. -/
theorem parseArrElems_dumps (x : Json) (xs : List Json) : ∀ (fuel : Nat)
    (ws rest : List Char) (acc : List Json),
    fuelList (x :: xs) ≤ fuel → (∀ c ∈ ws, isJsonWs c = true) → numSafeB rest = true →
    ∃ w, parseArrElems fuel (ws ++ (dumpsList (x :: xs) ++ ']' :: rest)) acc =
      some (w, rest) := by
  intro fuel ws rest acc hf hws hrest
  obtain ⟨f, rfl⟩ : ∃ f, fuel = f + 1 := ⟨fuel - 1, by simp only [fuelList] at hf; omega⟩
  cases xs with
  | nil =>
    have hfx : fuelVal x ≤ f := by simp only [fuelList, fuelVal] at hf ⊢; omega
    obtain ⟨w, hw⟩ := parseVal_dumps x f ws (']' :: rest) hfx hws (by rfl)
    refine ⟨Json.arr (acc ++ [w]), ?_⟩
    have harg : ws ++ (dumpsList [x] ++ ']' :: rest) = ws ++ (dumpsVal x ++ ']' :: rest) := by
      simp [dumpsList]
    rw [parseArrElems, harg, hw]
    simp [skipJsonWs_cons_of_not_ws (c := ']') (by decide)]
  | cons y ys =>
    have hfx : fuelVal x ≤ f := by simp only [fuelList] at hf; omega
    have hrest2 : numSafeB (',' :: ' ' :: (dumpsList (y :: ys) ++ ']' :: rest)) = true := by rfl
    obtain ⟨w, hw⟩ :=
      parseVal_dumps x f ws (',' :: ' ' :: (dumpsList (y :: ys) ++ ']' :: rest)) hfx hws hrest2
    have hfl : fuelList (y :: ys) ≤ f := by simp only [fuelList] at hf ⊢; omega
    obtain ⟨w2, hw2⟩ := parseArrElems_dumps y ys f [' '] rest (acc ++ [w]) hfl (by decide) hrest
    refine ⟨w2, ?_⟩
    have harg : ws ++ (dumpsList (x :: y :: ys) ++ ']' :: rest) =
        ws ++ (dumpsVal x ++ (',' :: ' ' :: (dumpsList (y :: ys) ++ ']' :: rest))) := by
      simp [dumpsList]
    rw [parseArrElems, harg, hw]
    have hskip : skipJsonWs (',' :: ' ' :: (dumpsList (y :: ys) ++ ']' :: rest)) =
        ',' :: ' ' :: (dumpsList (y :: ys) ++ ']' :: rest) :=
      skipJsonWs_cons_of_not_ws (by decide) _
    simp only [hskip, if_pos rfl]
    simpa using hw2
termination_by sizeOf x + sizeOf xs + 1
decreasing_by
  all_goals subst_vars
  all_goals try simp
  all_goals omega

/-- The entry loop of the parser consumes the serialized entries of a
non-empty object together with the closing brace. -/
theorem parseObjItems_dumps (k : String) (v : Json) (kvs : List (String × Json)) :
    ∀ (fuel : Nat) (ws rest : List Char) (acc : List (String × Json)),
    fuelObj ((k, v) :: kvs) ≤ fuel → (∀ c ∈ ws, isJsonWs c = true) → numSafeB rest = true →
    ∃ w, parseObjItems fuel (ws ++ (dumpsObj ((k, v) :: kvs) ++ '}' :: rest)) acc =
      some (w, rest) := by
  intro fuel ws rest acc hf hws hrest
  obtain ⟨f, rfl⟩ : ∃ f, fuel = f + 1 := ⟨fuel - 1, by simp only [fuelObj] at hf; omega⟩
  cases kvs with
  | nil =>
    have hfx : fuelVal v ≤ f := by simp only [fuelObj] at hf; omega
    obtain ⟨p, hp⟩ := parseStringAux_escapeList k.data (':' :: ' ' :: (dumpsVal v ++ '}' :: rest)) []
    obtain ⟨w, hw⟩ := parseVal_dumps v f [' '] ('}' :: rest) hfx (by decide) (by rfl)
    refine ⟨Json.obj (acc ++ [(p, w)]), ?_⟩
    have harg : ws ++ (dumpsObj [(k, v)] ++ '}' :: rest) =
        ws ++ ('"' :: (escapeList k.data ++
          '"' :: (':' :: ' ' :: (dumpsVal v ++ '}' :: rest)))) := by
      simp [dumpsObj]
    have hskip : skipJsonWs (ws ++ ('"' :: (escapeList k.data ++
        '"' :: (':' :: ' ' :: (dumpsVal v ++ '}' :: rest))))) =
        '"' :: (escapeList k.data ++ '"' :: (':' :: ' ' :: (dumpsVal v ++ '}' :: rest))) := by
      rw [skipJsonWs_append_ws hws]
      exact skipJsonWs_cons_of_not_ws (by decide) _
    rw [parseObjItems, harg, hskip]
    have hskipc : skipJsonWs (':' :: ' ' :: (dumpsVal v ++ '}' :: rest)) =
        ':' :: ' ' :: (dumpsVal v ++ '}' :: rest) :=
      skipJsonWs_cons_of_not_ws (by decide) _
    simp only [if_pos rfl, hp, hskipc]
    have : (' ' :: (dumpsVal v ++ '}' :: rest)) = [' '] ++ (dumpsVal v ++ '}' :: rest) := rfl
    simp only [this, hw]
    simp [skipJsonWs_cons_of_not_ws (c := '}') (by decide)]
  | cons kv2 kvs2 =>
    have hfx : fuelVal v ≤ f := by simp only [fuelObj] at hf; omega
    obtain ⟨p, hp⟩ := parseStringAux_escapeList k.data
      (':' :: ' ' :: (dumpsVal v ++ ',' :: ' ' :: (dumpsObj (kv2 :: kvs2) ++ '}' :: rest))) []
    obtain ⟨w, hw⟩ := parseVal_dumps v f [' ']
      (',' :: ' ' :: (dumpsObj (kv2 :: kvs2) ++ '}' :: rest)) hfx (by decide) (by rfl)
    have hfl : fuelObj ((kv2.1, kv2.2) :: kvs2) ≤ f := by
      rw [Prod.mk.eta]; simp only [fuelObj] at hf ⊢; omega
    obtain ⟨w2, hw2⟩ :=
      parseObjItems_dumps kv2.1 kv2.2 kvs2 f [' '] rest (acc ++ [(p, w)]) hfl (by decide) hrest
    rw [Prod.mk.eta] at hw2
    refine ⟨w2, ?_⟩
    have harg : ws ++ (dumpsObj ((k, v) :: kv2 :: kvs2) ++ '}' :: rest) =
        ws ++ ('"' :: (escapeList k.data ++ '"' :: (':' :: ' ' ::
          (dumpsVal v ++ ',' :: ' ' :: (dumpsObj (kv2 :: kvs2) ++ '}' :: rest))))) := by
      simp [dumpsObj]
    have hskip : skipJsonWs (ws ++ ('"' :: (escapeList k.data ++ '"' :: (':' :: ' ' ::
        (dumpsVal v ++ ',' :: ' ' :: (dumpsObj (kv2 :: kvs2) ++ '}' :: rest)))))) =
        '"' :: (escapeList k.data ++ '"' :: (':' :: ' ' ::
          (dumpsVal v ++ ',' :: ' ' :: (dumpsObj (kv2 :: kvs2) ++ '}' :: rest)))) := by
      rw [skipJsonWs_append_ws hws]
      exact skipJsonWs_cons_of_not_ws (by decide) _
    rw [parseObjItems, harg, hskip]
    have hskipc : skipJsonWs (':' :: ' ' ::
        (dumpsVal v ++ ',' :: ' ' :: (dumpsObj (kv2 :: kvs2) ++ '}' :: rest))) =
        ':' :: ' ' :: (dumpsVal v ++ ',' :: ' ' :: (dumpsObj (kv2 :: kvs2) ++ '}' :: rest)) :=
      skipJsonWs_cons_of_not_ws (by decide) _
    simp only [if_pos rfl, hp, hskipc]
    have hws2 : (' ' :: (dumpsVal v ++ ',' :: ' ' :: (dumpsObj (kv2 :: kvs2) ++ '}' :: rest))) =
        [' '] ++ (dumpsVal v ++ ',' :: ' ' :: (dumpsObj (kv2 :: kvs2) ++ '}' :: rest)) := rfl
    simp only [hws2, hw]
    have hskipd : skipJsonWs (',' :: ' ' :: (dumpsObj (kv2 :: kvs2) ++ '}' :: rest)) =
        ',' :: ' ' :: (dumpsObj (kv2 :: kvs2) ++ '}' :: rest) :=
      skipJsonWs_cons_of_not_ws (by decide) _
    simp only [hskipd, if_pos rfl]
    simpa using hw2
termination_by sizeOf v + sizeOf kvs + 1
decreasing_by
  all_goals subst_vars
  all_goals try rcases kv2 with ⟨k9, v9⟩
  all_goals try simp
  all_goals omega

end

mutual

theorem fuelVal_le (v : Json) : fuelVal v ≤ 2 * (dumpsVal v).length + 1 := by
  cases v with
  | null => simp [fuelVal, dumpsVal]
  | bool b => cases b <;> simp [fuelVal, dumpsVal]
  | num n => simp only [fuelVal]; omega
  | str s => simp only [fuelVal]; omega
  | arr xs =>
    have h := fuelList_le xs
    simp only [fuelVal, dumpsVal, List.length_cons, List.length_append]
    omega
  | obj kvs =>
    have h := fuelObj_le kvs
    simp only [fuelVal, dumpsVal, List.length_cons, List.length_append]
    omega

theorem fuelList_le (xs : List Json) : fuelList xs ≤ 2 * (dumpsList xs).length + 3 := by
  match xs with
  | [] => simp [fuelList, dumpsList]
  | [x] =>
    have h := fuelVal_le x
    simp only [fuelList, dumpsList]
    omega
  | x :: y :: rest =>
    have h1 := fuelVal_le x
    have h2 := fuelList_le (y :: rest)
    simp only [fuelList] at h2
    simp only [fuelList, dumpsList, List.length_append, List.length_cons]
    omega

theorem fuelObj_le (kvs : List (String × Json)) :
    fuelObj kvs ≤ 2 * (dumpsObj kvs).length + 3 := by
  match kvs with
  | [] => simp [fuelObj, dumpsObj]
  | [(k, v)] =>
    have h := fuelVal_le v
    simp only [fuelObj, dumpsObj, List.length_append, List.length_cons]
    omega
  | (k, v) :: item :: rest =>
    have h1 := fuelVal_le v
    have h2 := fuelObj_le (item :: rest)
    simp only [fuelObj] at h2
    simp only [fuelObj, dumpsObj, List.length_append, List.length_cons]
    omega

end

/-- Round trip: the serialization of any JSON value is accepted by the
parser (so Python `json.loads` never fails on `json.dumps` output). -/
theorem loads_dumps (v : Json) : ∃ w, loads (dumps v) = some w := by
  obtain ⟨w, hw⟩ :=
    parseVal_dumps v (2 * (dumpsVal v).length + 1) [] [] (fuelVal_le v) (by simp) rfl
  refine ⟨w, ?_⟩
  have hdata : (dumps v).data = dumpsVal v := rfl
  simp only [List.nil_append, List.append_nil] at hw
  simp only [loads, hdata, hw]
  rfl

/-- The form used at call sites: `loads` succeeds on `dumps` output. -/
theorem loads_dumps_isSome (v : Json) : (loads (dumps v)).isSome = true := by
  obtain ⟨w, hw⟩ := loads_dumps v
  simp [hw]

end Json

/-! ## `app/utils/gutenberg.py` -/

/-- `MAX_CONTENT_SIZE = 8 * 1024 * 1024` (bytes). -/
def MAX_CONTENT_SIZE : Nat := 8 * 1024 * 1024

/-- Python `len(content.encode("utf-8"))`: UTF-8 byte length of a string. -/
def utf8Len (s : String) : Nat := (s.data.map Char.utf8Size).sum

/-- Outcome of one `requests.get` call: an exception
(`requests.RequestException`) or a response with status code and body text. -/
inductive HttpOutcome where
  | exn : HttpOutcome
  | resp : Nat → String → HttpOutcome

/-- The truncation step of `fetch_book_content`: a body whose UTF-8 encoding
exceeds `MAX_CONTENT_SIZE` bytes is cut to its first 7500000 characters
(Python `content[:7500000]` slices code points). -/
def truncateContent (content : String) : String :=
  if MAX_CONTENT_SIZE < utf8Len content then content.take 7500000 else content

/-- `fetch_book_content`: try the candidate URLs in order (the source lists
three fixed URL patterns; the environment supplies one outcome per URL).  A
200 response returns its (possibly truncated) text; an exception or any other
status falls through to the next URL; exhaustion returns `None`. -/
def fetch_book_content (responses : List HttpOutcome) : Option String :=
  match responses with
  | [] => none
  | HttpOutcome.exn :: rest => fetch_book_content rest
  | HttpOutcome.resp status text :: rest =>
    if status = 200 then some (truncateContent text) else fetch_book_content rest

/-- The four optional fields `fetch_book_metadata` scrapes out of the book
page (each `metadata[...]` assignment is guarded by a selector hit). -/
structure Metadata where
  title : Option String
  author : Option String
  language : Option String
  download_count : Option Int

/-- `fetch_book_metadata`: the HTML fetch and BeautifulSoup selector results
are environmental; a non-200 status or an exception yields `None`, otherwise
the dictionary of whichever fields the selectors matched. -/
def fetch_book_metadata (outcome : Option Metadata) : Option Metadata := outcome

/-- The dictionary returned by `get_book_data` (metadata fields plus the
always-present `content` and `book_id` keys). -/
structure BookData where
  title : Option String
  author : Option String
  language : Option String
  download_count : Option Int
  content : String
  book_id : String

/-- `get_book_data`: fetch content and metadata; `None` if either is `None`,
else the merged dictionary. -/
def get_book_data (book_id : String) (contentEnv : List HttpOutcome)
    (metadataEnv : Option Metadata) : Option BookData :=
  match fetch_book_content contentEnv, fetch_book_metadata metadataEnv with
  | some c, some m =>
    some { title := m.title, author := m.author, language := m.language,
           download_count := m.download_count, content := c, book_id := book_id }
  | _, _ => none

/-! ## `app/utils/llm.py` -/

/-- Outcome of the Groq chat-completion call: an exception, or the message
content string. -/
inductive LLMOutcome where
  | exn : LLMOutcome
  | resp : String → LLMOutcome

/-- Python `re` whitespace `\s` (ASCII range). -/
def isPyWs (c : Char) : Bool :=
  c == ' ' || c == '\t' || c == '\n' || c == '\r' || c == '\x0b' || c == '\x0c'

/-- Drop leading Python-regex whitespace. -/
def skipPyWs (cs : List Char) : List Char := cs.dropWhile isPyWs

/-- After a candidate closing brace, the first regex requires optional
whitespace and then a closing triple backtick. -/
def fenceAfterClose (rest : List Char) : Bool :=
  (Json.stripChars ['`', '`', '`'] (skipPyWs rest)).isSome

/-- Lazy body match of `{[\s\S]*?}` against the continuation `\s*` ```` ``` ````:
the earliest `}` whose continuation matches, returning the body before it and
the remainder. -/
def findLazyClose : List Char → Option (List Char × List Char)
  | [] => none
  | c :: rest =>
    if c = '}' ∧ fenceAfterClose rest then some ([], rest)
    else
      match findLazyClose rest with
      | some (body, r) => some (c :: body, r)
      | none => none

/-- Attempt the first regex ``` ```(?:json)?\s*({[\s\S]*?})\s*``` ``` at one
start position: a fence, optionally `json`, whitespace, then the lazy group.
The optional `json` is tried greedily and backtracked, as the regex engine
does. -/
def matchFenceAt (cs : List Char) : Option (List Char) :=
  match Json.stripChars ['`', '`', '`'] cs with
  | none => none
  | some afterFence =>
    let attempt : List Char → Option (List Char) := fun r =>
      match skipPyWs r with
      | '{' :: body => (findLazyClose body).map (fun p => '{' :: p.1 ++ ['}'])
      | _ => none
    match Json.stripChars ['j', 's', 'o', 'n'] afterFence with
    | some afterJson =>
      match attempt afterJson with
      | some g => some g
      | none => attempt afterFence
    | none => attempt afterFence

/-- `re.search` of the first regex: leftmost start position that matches. -/
def searchFence : List Char → Option (List Char)
  | [] => none
  | cs@(_ :: rest) =>
    match matchFenceAt cs with
    | some g => some g
    | none => searchFence rest

/-- Prefix of the input up to and including its last `}`, if any (the greedy
`[\s\S]*}` part of the second regex). -/
def takeToLastClose : List Char → Option (List Char)
  | [] => none
  | c :: rest =>
    match takeToLastClose rest with
    | some t => some (c :: t)
    | none => if c = '}' then some [c] else none

/-- `re.search` of the second regex `({[\s\S]*})`: from the first `{` through
the last `}` after it. -/
def searchBraces (cs : List Char) : Option (List Char) :=
  match cs.dropWhile (fun c => !(c == '{')) with
  | [] => none
  | c :: rest =>
    if c = '{' then (takeToLastClose rest).map (fun t => '{' :: t) else none

/-- `extract_json_from_response`: group of the first regex if it matches,
else group of the second, else the content unchanged. -/
def extract_json_from_response (content : String) : String :=
  match searchFence content.data with
  | some g => String.mk g
  | none =>
    match searchBraces content.data with
    | some g => String.mk g
    | none => content

/-- Fallback literal of `analyze_characters` (all three failure paths of that
function return the same literal). -/
def FALLBACK_CHARACTERS : String := "\x7b\"characters\": []\x7d"

/-- Fallback literal of `detect_language`. -/
def FALLBACK_LANGUAGE : String := "\x7b\"language\": \"unknown\", \"confidence\": 0\x7d"

/-- Fallback literal of `summarize_plot` for an empty response. -/
def FALLBACK_PLOT_EMPTY : String :=
  "\x7b\"summary\": \"Could not generate summary\", \"key_events\": []\x7d"

/-- Fallback literal of `summarize_plot` for a parse error or an exception. -/
def FALLBACK_PLOT_ERROR : String :=
  "\x7b\"summary\": \"Error generating summary\", \"key_events\": []\x7d"

/-- Shared response-handling tail of the three LLM wrappers: empty content
(after `strip`) returns the empty-fallback; otherwise the extracted JSON is
parsed and re-serialized, with the error-fallback on a parse failure.  An
exception from the API call returns the error-fallback (every statement of
each wrapper body sits inside its `try`).  The prompt built from the text
sample only feeds the external call and cannot influence the result. -/
def llmWrapper (llm : LLMOutcome) (fallbackEmpty fallbackError : String) : String :=
  match llm with
  | LLMOutcome.exn => fallbackError
  | LLMOutcome.resp content =>
    if content.trim = "" then fallbackEmpty
    else
      match Json.loads (extract_json_from_response content) with
      | some parsed => Json.dumps parsed
      | none => fallbackError

/-- `analyze_characters(title, author, text)`: the 15000-character text
sample goes into the prompt; the result depends only on the call outcome. -/
def analyze_characters (llm : LLMOutcome) (title author : Option String)
    (text : String) : String :=
  llmWrapper llm FALLBACK_CHARACTERS FALLBACK_CHARACTERS

/-- `detect_language(text)`: the 5000-character sample goes into the prompt. -/
def detect_language (llm : LLMOutcome) (text : String) : String :=
  llmWrapper llm FALLBACK_LANGUAGE FALLBACK_LANGUAGE

/-- `summarize_plot(title, author, text)`: the 20000-character sample goes
into the prompt; the empty-response fallback differs from the error one. -/
def summarize_plot (llm : LLMOutcome) (title author : Option String)
    (text : String) : String :=
  llmWrapper llm FALLBACK_PLOT_EMPTY FALLBACK_PLOT_ERROR

/-! ## `app/models/database.py` — the two tables -/

/-- A row of the `books` table.  `id` is the autoincrement primary key,
`book_id` the external Project Gutenberg catalog id; the metadata columns are
nullable. -/
structure BookRow where
  id : Nat
  book_id : String
  title : Option String
  author : Option String
  language : Option String
  download_count : Option Int
  content : Option String
  created_at : Nat
deriving DecidableEq

/-- A row of the `analyses` table; `book_id` is the foreign key to
`books.id`, `result` the JSON column. -/
structure AnalysisRow where
  id : Nat
  book_id : Nat
  analysis_type : String
  result : Json
  created_at : Nat

/-- The relational store: the two tables plus the autoincrement counters. -/
structure DBState where
  books : List BookRow
  analyses : List AnalysisRow
  next_book_pk : Nat
  next_analysis_pk : Nat

/-- The empty database produced by `create_tables`. -/
def initState : DBState :=
  { books := [], analyses := [], next_book_pk := 1, next_analysis_pk := 1 }

/-- `db.query(Book).filter(Book.book_id == bid).first()`. -/
def findBook? (books : List BookRow) (bid : String) : Option BookRow :=
  books.find? (fun b => b.book_id == bid)

/-- `db.query(Analysis).filter(Analysis.book_id == pk,
Analysis.analysis_type == atype).first()`. -/
def findAnalysis? (analyses : List AnalysisRow) (pk : Nat) (atype : String) :
    Option AnalysisRow :=
  analyses.find? (fun a => a.book_id == pk && a.analysis_type == atype)

/-- ORM-level deletion of the book with primary key `pk`: the relationship
`analyses = relationship(..., cascade="all, delete-orphan")` deletes every
`Analysis` row of the book together with it.  No API route invokes this. -/
def delete_book (pk : Nat) (s : DBState) : DBState :=
  { s with books := s.books.filter (fun b => !(b.id == pk)),
           analyses := s.analyses.filter (fun a => !(a.book_id == pk)) }

/-! ## `app/routers/books.py` -/

/-- Response of the `GET /api/books/{book_id}` handler. -/
inductive BookResp where
  | ok : BookRow → BookResp
  | notFound : String → BookResp

/-- `get_book`: return the stored row if the catalog id is present; otherwise
fetch from Project Gutenberg, 404 when nothing could be fetched, else insert
and return the new row (`now` models the `created_at` default). -/
def get_book (book_id : String) (contentEnv : List HttpOutcome)
    (metadataEnv : Option Metadata) (now : Nat) (s : DBState) : BookResp × DBState :=
  match findBook? s.books book_id with
  | some book => (BookResp.ok book, s)
  | none =>
    match get_book_data book_id contentEnv metadataEnv with
    | none =>
      (BookResp.notFound ("Book with ID " ++ book_id ++
        " not found in Project Gutenberg"), s)
    | some d =>
      let book : BookRow :=
        { id := s.next_book_pk, book_id := book_id, title := d.title,
          author := d.author, language := d.language,
          download_count := d.download_count, content := some d.content,
          created_at := now }
      (BookResp.ok book,
       { s with books := s.books ++ [book], next_book_pk := s.next_book_pk + 1 })

/-! ## `app/schemas/book.py` and `app/routers/analysis.py` -/

/-- `AnalysisRequest` request body: `book_id` and `analysis_type`. -/
structure AnalysisRequest where
  book_id : String
  analysis_type : String

/-- Response of an analysis handler: the JSON result, a 404, or a 500. -/
inductive AnalysisResp where
  | ok : Json → AnalysisResp
  | notFound : String → AnalysisResp
  | serverError : String → AnalysisResp

/-- Shared body of the three analysis handlers (identical in the source up to
the analysis type, the LLM wrapper called and the message text): look up the
book by catalog id (404 if absent), return a cached result if present,
otherwise run the LLM on the book content, parse the JSON and store it.  A
`None` content raises a `TypeError` inside the wrapper before its `try`
(`text[:n]`), caught by the handler's outer `except` as a 500; the handler's
inner `except json.JSONDecodeError` is the `Invalid JSON response` 500 (its
detail is then rewrapped by the outer handler; we keep the inner text). -/
def analysis_endpoint (atype : String) (errDetail : String)
    (runLLM : Option String → Option String → String → String)
    (req : AnalysisRequest) (now : Nat) (s : DBState) : AnalysisResp × DBState :=
  match findBook? s.books req.book_id with
  | none =>
    (AnalysisResp.notFound ("Book with ID " ++ req.book_id ++
      " not found. Download it first."), s)
  | some book =>
    match findAnalysis? s.analyses book.id atype with
    | some cached => (AnalysisResp.ok cached.result, s)
    | none =>
      match book.content with
      | none =>
        (AnalysisResp.serverError (errDetail ++
          "TypeError: NoneType object is not subscriptable"), s)
      | some text =>
        match Json.loads (runLLM book.title book.author text) with
        | some result_json =>
          (AnalysisResp.ok result_json,
           { s with
              analyses := s.analyses ++
                [{ id := s.next_analysis_pk, book_id := book.id,
                   analysis_type := atype, result := result_json,
                   created_at := now }],
              next_analysis_pk := s.next_analysis_pk + 1 })
        | none => (AnalysisResp.serverError (errDetail ++ "Invalid JSON response"), s)

/-- `POST /api/analysis/characters`. -/
def get_characters_analysis (req : AnalysisRequest) (llm : LLMOutcome) (now : Nat)
    (s : DBState) : AnalysisResp × DBState :=
  analysis_endpoint "characters" "Error processing character analysis: "
    (fun title author text => analyze_characters llm title author text) req now s

/-- `POST /api/analysis/language`. -/
def get_language_analysis (req : AnalysisRequest) (llm : LLMOutcome) (now : Nat)
    (s : DBState) : AnalysisResp × DBState :=
  analysis_endpoint "language" "Error processing language analysis: "
    (fun _ _ text => detect_language llm text) req now s

/-- `POST /api/analysis/plot`. -/
def get_plot_analysis (req : AnalysisRequest) (llm : LLMOutcome) (now : Nat)
    (s : DBState) : AnalysisResp × DBState :=
  analysis_endpoint "plot" "Error processing plot summary: "
    (fun title author text => summarize_plot llm title author text) req now s

/-! ## The API surface as a transition system -/

/-- One request handled by the service.  `getBook` and the three analysis
handlers are the only state-changing routes; `readOnly` covers every other
route (`GET /api/books/`, `/`, `/api/health`, the `livros` demo router), all
of which only read. -/
inductive Step : DBState → DBState → Prop where
  | getBook (book_id : String) (contentEnv : List HttpOutcome)
      (metadataEnv : Option Metadata) (now : Nat) (s : DBState) :
      Step s (get_book book_id contentEnv metadataEnv now s).2
  | characters (req : AnalysisRequest) (llm : LLMOutcome) (now : Nat) (s : DBState) :
      Step s (get_characters_analysis req llm now s).2
  | language (req : AnalysisRequest) (llm : LLMOutcome) (now : Nat) (s : DBState) :
      Step s (get_language_analysis req llm now s).2
  | plot (req : AnalysisRequest) (llm : LLMOutcome) (now : Nat) (s : DBState) :
      Step s (get_plot_analysis req llm now s).2
  | readOnly (s : DBState) : Step s s

/-- States reachable through the API from the freshly created schema. -/
def Reachable (s : DBState) : Prop := Relation.ReflTransGen Step initState s

/-- The fixed enumeration of analysis kinds. -/
def analysisKinds : List String := ["characters", "language", "plot"]

/-- The database invariant maintained by every handler. -/
structure DBInv (s : DBState) : Prop where
  book_pk_lt : ∀ b ∈ s.books, b.id < s.next_book_pk
  book_pk_uniq : s.books.Pairwise (fun b1 b2 => b1.id ≠ b2.id)
  book_cid_uniq : s.books.Pairwise (fun b1 b2 => b1.book_id ≠ b2.book_id)
  book_content : ∀ b ∈ s.books, b.content ≠ none
  an_uniq : s.analyses.Pairwise
    (fun a1 a2 => ¬(a1.book_id = a2.book_id ∧ a1.analysis_type = a2.analysis_type))
  an_kind : ∀ a ∈ s.analyses, a.analysis_type ∈ analysisKinds
  an_ref : ∀ a ∈ s.analyses, ∃ b ∈ s.books, b.id = a.book_id

/-! ## Store lemmas -/

/-- The row `get_book` inserts on a successful fetch. -/
def mkBookRow (bid : String) (d : BookData) (pk now : Nat) : BookRow :=
  { id := pk, book_id := bid, title := d.title, author := d.author,
    language := d.language, download_count := d.download_count,
    content := some d.content, created_at := now }

/-- The row an analysis handler inserts on a fresh successful analysis. -/
def mkAnalysisRow (pk bookPk : Nat) (atype : String) (rj : Json) (now : Nat) : AnalysisRow :=
  { id := pk, book_id := bookPk, analysis_type := atype, result := rj, created_at := now }

/-- `db.add(book); db.commit()`. -/
def insertBook (s : DBState) (b : BookRow) : DBState :=
  { s with books := s.books ++ [b], next_book_pk := s.next_book_pk + 1 }

/-- `db.add(new_analysis); db.commit()`. -/
def insertAnalysis (s : DBState) (a : AnalysisRow) : DBState :=
  { s with analyses := s.analyses ++ [a], next_analysis_pk := s.next_analysis_pk + 1 }

theorem findBook?_none {books : List BookRow} {bid : String}
    (h : findBook? books bid = none) : ∀ b ∈ books, b.book_id ≠ bid := by
  intro b hb
  have := List.find?_eq_none.mp h b hb
  simpa using this

theorem findBook?_some {books : List BookRow} {bid : String} {b : BookRow}
    (h : findBook? books bid = some b) : b ∈ books ∧ b.book_id = bid := by
  refine ⟨List.mem_of_find?_eq_some h, ?_⟩
  have := List.find?_some h
  simpa using this

theorem findAnalysis?_none {analyses : List AnalysisRow} {pk : Nat} {atype : String}
    (h : findAnalysis? analyses pk atype = none) :
    ∀ a ∈ analyses, ¬(a.book_id = pk ∧ a.analysis_type = atype) := by
  intro a ha
  have := List.find?_eq_none.mp h a ha
  simp only [Bool.and_eq_true, beq_iff_eq] at this
  tauto

theorem findAnalysis?_some {analyses : List AnalysisRow} {pk : Nat} {atype : String}
    {a : AnalysisRow} (h : findAnalysis? analyses pk atype = some a) :
    a ∈ analyses ∧ a.book_id = pk ∧ a.analysis_type = atype := by
  refine ⟨List.mem_of_find?_eq_some h, ?_⟩
  have := List.find?_some h
  simp only [Bool.and_eq_true, beq_iff_eq] at this
  exact this

/-- Control-flow split of `get_book` on the state side: either the state is
untouched, or the book was absent, the fetch succeeded, and exactly the new
row was appended. -/
theorem get_book_cases (bid : String) (c : List HttpOutcome) (m : Option Metadata)
    (now : Nat) (s : DBState) :
    (get_book bid c m now s).2 = s ∨
    (findBook? s.books bid = none ∧ ∃ d, get_book_data bid c m = some d ∧
      (get_book bid c m now s).2 =
        insertBook s (mkBookRow bid d s.next_book_pk now)) := by
  cases hb : findBook? s.books bid with
  | some book => left; simp [get_book, hb]
  | none =>
    cases hd : get_book_data bid c m with
    | none => left; simp [get_book, hb, hd]
    | some d =>
      right
      exact ⟨rfl, d, rfl, by simp [get_book, hb, hd, insertBook, mkBookRow]⟩

/-- Control-flow split of `analysis_endpoint` on the state side. -/
theorem analysis_endpoint_cases (atype errDetail : String)
    (runLLM : Option String → Option String → String → String)
    (req : AnalysisRequest) (now : Nat) (s : DBState) :
    (analysis_endpoint atype errDetail runLLM req now s).2 = s ∨
    ∃ book text rj,
      findBook? s.books req.book_id = some book ∧
      findAnalysis? s.analyses book.id atype = none ∧
      book.content = some text ∧
      Json.loads (runLLM book.title book.author text) = some rj ∧
      (analysis_endpoint atype errDetail runLLM req now s).2 =
        insertAnalysis s (mkAnalysisRow s.next_analysis_pk book.id atype rj now) := by
  cases hb : findBook? s.books req.book_id with
  | none => left; simp [analysis_endpoint, hb]
  | some book =>
    cases ha : findAnalysis? s.analyses book.id atype with
    | some cached => left; simp [analysis_endpoint, hb, ha]
    | none =>
      cases hc : book.content with
      | none => left; simp [analysis_endpoint, hb, ha, hc]
      | some text =>
        cases hj : Json.loads (runLLM book.title book.author text) with
        | none => left; simp [analysis_endpoint, hb, ha, hc, hj]
        | some rj =>
          right
          exact ⟨book, text, rj, rfl, ha, hc, hj,
            by simp [analysis_endpoint, hb, ha, hc, hj, insertAnalysis, mkAnalysisRow]⟩

/-- Analysis handlers never touch the `books` table. -/
theorem analysis_endpoint_books (atype errDetail : String)
    (runLLM : Option String → Option String → String → String)
    (req : AnalysisRequest) (now : Nat) (s : DBState) :
    (analysis_endpoint atype errDetail runLLM req now s).2.books = s.books := by
  rcases analysis_endpoint_cases atype errDetail runLLM req now s with h | ⟨_, _, _, _, _, _, _, h⟩
  · rw [h]
  · rw [h]; rfl

theorem DBInv_init : DBInv initState := by
  constructor <;> simp [initState, analysisKinds]

/-- The invariant is preserved by appending a fresh analysis row of a listed
kind for a stored book with no cached row of that kind. -/
theorem DBInv_append_analysis {s : DBState} (hi : DBInv s) {book : BookRow}
    {atype : String} {rj : Json} {now : Nat}
    (hbmem : book ∈ s.books) (hkind : atype ∈ analysisKinds)
    (ha : findAnalysis? s.analyses book.id atype = none) :
    DBInv (insertAnalysis s (mkAnalysisRow s.next_analysis_pk book.id atype rj now)) := by
  have hnone := findAnalysis?_none ha
  simp only [insertAnalysis, mkAnalysisRow]
  constructor
  · exact hi.book_pk_lt
  · exact hi.book_pk_uniq
  · exact hi.book_cid_uniq
  · exact hi.book_content
  · rw [List.pairwise_append]
    refine ⟨hi.an_uniq, by simp, ?_⟩
    intro a hamem a2 ha2
    simp only [List.mem_singleton] at ha2
    subst ha2
    simpa using hnone a hamem
  · intro a ha2
    rcases List.mem_append.mp ha2 with h | h
    · exact hi.an_kind a h
    · simp only [List.mem_singleton] at h
      subst h
      simpa using hkind
  · intro a ha2
    rcases List.mem_append.mp ha2 with h | h
    · exact hi.an_ref a h
    · simp only [List.mem_singleton] at h
      subst h
      exact ⟨book, hbmem, rfl⟩

/-- Every step of the API preserves the invariant. -/
theorem DBInv_step {s s' : DBState} (h : Step s s') (hi : DBInv s) : DBInv s' := by
  cases h with
  | getBook bid c m now s =>
    rcases get_book_cases bid c m now s with heq | ⟨hb, d, hd, heq⟩
    · rwa [heq]
    · rw [heq]
      have hnone := findBook?_none hb
      simp only [insertBook, mkBookRow]
      constructor
      · intro b hb2
        rcases List.mem_append.mp hb2 with h | h
        · exact Nat.lt_trans (hi.book_pk_lt b h) (Nat.lt_succ_self _)
        · simp only [List.mem_singleton] at h
          subst h
          exact Nat.lt_succ_self _
      · rw [List.pairwise_append]
        refine ⟨hi.book_pk_uniq, by simp, ?_⟩
        intro b hbm b2 hb2
        simp only [List.mem_singleton] at hb2
        subst hb2
        have := hi.book_pk_lt b hbm
        simp only []
        omega
      · rw [List.pairwise_append]
        refine ⟨hi.book_cid_uniq, by simp, ?_⟩
        intro b hbm b2 hb2
        simp only [List.mem_singleton] at hb2
        subst hb2
        simpa using hnone b hbm
      · intro b hb2
        rcases List.mem_append.mp hb2 with h | h
        · exact hi.book_content b h
        · simp only [List.mem_singleton] at h
          subst h
          simp
      · exact hi.an_uniq
      · exact hi.an_kind
      · intro a ha
        obtain ⟨b, hbm, hbid⟩ := hi.an_ref a ha
        exact ⟨b, List.mem_append_left _ hbm, hbid⟩
  | characters req llm now s =>
    rcases analysis_endpoint_cases "characters" "Error processing character analysis: "
        (fun title author text => analyze_characters llm title author text) req now s with
      heq | ⟨book, text, rj, hb, ha, hc, hj, heq⟩
    · rwa [show (get_characters_analysis req llm now s).2 = s from heq]
    · rw [show (get_characters_analysis req llm now s).2 = _ from heq]
      exact DBInv_append_analysis hi (findBook?_some hb).1 (by simp [analysisKinds]) ha
  | language req llm now s =>
    rcases analysis_endpoint_cases "language" "Error processing language analysis: "
        (fun _ _ text => detect_language llm text) req now s with
      heq | ⟨book, text, rj, hb, ha, hc, hj, heq⟩
    · rwa [show (get_language_analysis req llm now s).2 = s from heq]
    · rw [show (get_language_analysis req llm now s).2 = _ from heq]
      exact DBInv_append_analysis hi (findBook?_some hb).1 (by simp [analysisKinds]) ha
  | plot req llm now s =>
    rcases analysis_endpoint_cases "plot" "Error processing plot summary: "
        (fun title author text => summarize_plot llm title author text) req now s with
      heq | ⟨book, text, rj, hb, ha, hc, hj, heq⟩
    · rwa [show (get_plot_analysis req llm now s).2 = s from heq]
    · rw [show (get_plot_analysis req llm now s).2 = _ from heq]
      exact DBInv_append_analysis hi (findBook?_some hb).1 (by simp [analysisKinds]) ha
  | readOnly s => exact hi

/-- Every reachable state satisfies the invariant. -/
theorem reachable_DBInv {s : DBState} (h : Reachable s) : DBInv s := by
  induction h with
  | refl => exact DBInv_init
  | tail _ hstep ih => exact DBInv_step hstep ih

/-! ## Handler response lemmas -/

theorem find?_append_of_none {α : Type} (p : α → Bool) (l1 l2 : List α)
    (h : l1.find? p = none) : (l1 ++ l2).find? p = l2.find? p := by
  induction l1 with
  | nil => simp
  | cons x t ih =>
    cases hp : p x with
    | true =>
      rw [List.find?_cons_of_pos _ hp] at h
      exact absurd h (by simp)
    | false =>
      have hp2 : ¬ p x = true := by simp [hp]
      rw [List.find?_cons_of_neg _ hp2] at h
      simp only [List.cons_append]
      rw [List.find?_cons_of_neg _ hp2]
      exact ih h

/-- A stored book is returned as-is, for any archive environment, with no
state change. -/
theorem get_book_found {s : DBState} {bid : String} {book : BookRow}
    (hb : findBook? s.books bid = some book) (c : List HttpOutcome)
    (m : Option Metadata) (now : Nat) :
    get_book bid c m now s = (BookResp.ok book, s) := by
  simp [get_book, hb]

/-- An absent book with a failed fetch yields the 404, with no state change. -/
theorem get_book_notFound {s : DBState} {bid : String} {c : List HttpOutcome}
    {m : Option Metadata} (hb : findBook? s.books bid = none)
    (hd : get_book_data bid c m = none) (now : Nat) :
    get_book bid c m now s =
      (BookResp.notFound ("Book with ID " ++ bid ++ " not found in Project Gutenberg"), s) := by
  simp [get_book, hb, hd]

/-- An absent book with a successful fetch inserts and returns the new row. -/
theorem get_book_fetched {s : DBState} {bid : String} {c : List HttpOutcome}
    {m : Option Metadata} {d : BookData} (hb : findBook? s.books bid = none)
    (hd : get_book_data bid c m = some d) (now : Nat) :
    get_book bid c m now s =
      (BookResp.ok (mkBookRow bid d s.next_book_pk now),
       insertBook s (mkBookRow bid d s.next_book_pk now)) := by
  simp [get_book, hb, hd, mkBookRow, insertBook]

/-- The get-book handler 404s exactly when the book is absent and the fetch
yields nothing. -/
theorem get_book_notFound_iff (bid : String) (c : List HttpOutcome)
    (m : Option Metadata) (now : Nat) (s : DBState) :
    (∃ msg, (get_book bid c m now s).1 = BookResp.notFound msg) ↔
      (findBook? s.books bid = none ∧ get_book_data bid c m = none) := by
  constructor
  · rintro ⟨msg, hmsg⟩
    cases hb : findBook? s.books bid with
    | some book => rw [get_book_found hb c m now] at hmsg; simp at hmsg
    | none =>
      cases hd : get_book_data bid c m with
      | none => exact ⟨rfl, rfl⟩
      | some d => rw [get_book_fetched hb hd now] at hmsg; simp at hmsg
  · rintro ⟨hb, hd⟩
    exact ⟨_, by rw [get_book_notFound hb hd now]⟩

/-- An analysis request for an unknown book 404s, with no state change. -/
theorem analysis_endpoint_notFound {s : DBState} {req : AnalysisRequest}
    (atype errDetail : String) (runLLM : Option String → Option String → String → String)
    (now : Nat) (hb : findBook? s.books req.book_id = none) :
    analysis_endpoint atype errDetail runLLM req now s =
      (AnalysisResp.notFound ("Book with ID " ++ req.book_id ++
        " not found. Download it first."), s) := by
  simp [analysis_endpoint, hb]

/-- A cached analysis is returned as stored, for any LLM environment, with no
state change. -/
theorem analysis_endpoint_cached {s : DBState} {req : AnalysisRequest}
    {book : BookRow} {cached : AnalysisRow} (atype errDetail : String)
    (runLLM : Option String → Option String → String → String) (now : Nat)
    (hb : findBook? s.books req.book_id = some book)
    (ha : findAnalysis? s.analyses book.id atype = some cached) :
    analysis_endpoint atype errDetail runLLM req now s =
      (AnalysisResp.ok cached.result, s) := by
  simp [analysis_endpoint, hb, ha]

/-- A fresh analysis whose LLM result parses is stored and returned. -/
theorem analysis_endpoint_fresh {s : DBState} {req : AnalysisRequest}
    {book : BookRow} {text : String} {rj : Json} (atype errDetail : String)
    (runLLM : Option String → Option String → String → String) (now : Nat)
    (hb : findBook? s.books req.book_id = some book)
    (ha : findAnalysis? s.analyses book.id atype = none)
    (hc : book.content = some text)
    (hj : Json.loads (runLLM book.title book.author text) = some rj) :
    analysis_endpoint atype errDetail runLLM req now s =
      (AnalysisResp.ok rj,
       insertAnalysis s (mkAnalysisRow s.next_analysis_pk book.id atype rj now)) := by
  simp [analysis_endpoint, hb, ha, hc, hj, insertAnalysis, mkAnalysisRow]

/-- An analysis handler 404s exactly when the requested book is absent. -/
theorem analysis_endpoint_notFound_iff (atype errDetail : String)
    (runLLM : Option String → Option String → String → String)
    (req : AnalysisRequest) (now : Nat) (s : DBState) :
    (∃ msg, (analysis_endpoint atype errDetail runLLM req now s).1 =
      AnalysisResp.notFound msg) ↔ findBook? s.books req.book_id = none := by
  constructor
  · rintro ⟨msg, hmsg⟩
    cases hb : findBook? s.books req.book_id with
    | none => rfl
    | some book =>
      exfalso
      cases ha : findAnalysis? s.analyses book.id atype with
      | some cached =>
        rw [analysis_endpoint_cached atype errDetail runLLM now hb ha] at hmsg
        simp at hmsg
      | none =>
        cases hc : book.content with
        | none => simp [analysis_endpoint, hb, ha, hc] at hmsg
        | some text =>
          cases hj : Json.loads (runLLM book.title book.author text) with
          | none => simp [analysis_endpoint, hb, ha, hc, hj] at hmsg
          | some rj =>
            rw [analysis_endpoint_fresh atype errDetail runLLM now hb ha hc hj] at hmsg
            simp at hmsg
  · intro hb
    exact ⟨_, by rw [analysis_endpoint_notFound atype errDetail runLLM now hb]⟩

/-- After a successful run, running the same analysis handler again — with
any LLM environment and clock — returns the same result and leaves the state
unchanged. -/
theorem analysis_endpoint_rerun {s s1 : DBState} {req : AnalysisRequest} {rj : Json}
    (atype errDetail : String)
    (runLLM runLLM2 : Option String → Option String → String → String)
    (now now2 : Nat)
    (h : analysis_endpoint atype errDetail runLLM req now s = (AnalysisResp.ok rj, s1)) :
    analysis_endpoint atype errDetail runLLM2 req now2 s1 = (AnalysisResp.ok rj, s1) := by
  cases hb : findBook? s.books req.book_id with
  | none => rw [analysis_endpoint_notFound atype errDetail runLLM now hb] at h; simp at h
  | some book =>
    cases ha : findAnalysis? s.analyses book.id atype with
    | some cached =>
      rw [analysis_endpoint_cached atype errDetail runLLM now hb ha] at h
      rw [Prod.mk.injEq] at h
      obtain ⟨h1, h2⟩ := h
      have h1c : cached.result = rj := by injection h1
      rw [← h1c, ← h2]
      exact analysis_endpoint_cached atype errDetail runLLM2 now2 hb ha
    | none =>
      cases hc : book.content with
      | none => simp [analysis_endpoint, hb, ha, hc] at h
      | some text =>
        cases hj : Json.loads (runLLM book.title book.author text) with
        | none => simp [analysis_endpoint, hb, ha, hc, hj] at h
        | some rj2 =>
          rw [analysis_endpoint_fresh atype errDetail runLLM now hb ha hc hj] at h
          rw [Prod.mk.injEq] at h
          obtain ⟨h1, h2⟩ := h
          have h1c : rj2 = rj := by injection h1
          rw [← h1c, ← h2]
          have hb1 : findBook? (insertAnalysis s
              (mkAnalysisRow s.next_analysis_pk book.id atype rj2 now)).books
              req.book_id = some book := hb
          have ha1 : findAnalysis? (insertAnalysis s
              (mkAnalysisRow s.next_analysis_pk book.id atype rj2 now)).analyses
              book.id atype = some (mkAnalysisRow s.next_analysis_pk book.id atype rj2 now) := by
            simp only [insertAnalysis, findAnalysis?]
            rw [find?_append_of_none _ _ _ ha]
            simp [mkAnalysisRow]
          have hres := analysis_endpoint_cached atype errDetail runLLM2 now2 hb1 ha1
          simpa [mkAnalysisRow] using hres

/-! ## LLM wrapper output validity -/

theorem loads_FALLBACK_CHARACTERS : (Json.loads FALLBACK_CHARACTERS).isSome = true := by decide

theorem loads_FALLBACK_LANGUAGE : (Json.loads FALLBACK_LANGUAGE).isSome = true := by decide

theorem loads_FALLBACK_PLOT_EMPTY : (Json.loads FALLBACK_PLOT_EMPTY).isSome = true := by decide

theorem loads_FALLBACK_PLOT_ERROR : (Json.loads FALLBACK_PLOT_ERROR).isSome = true := by decide

/-- Whatever the LLM returns, the wrapper result is a string `json.loads`
accepts: fallback literals in the failure branches, `json.dumps` output in
the success branch. -/
theorem llmWrapper_valid (llm : LLMOutcome) (fe fer : String)
    (hfe : (Json.loads fe).isSome = true) (hfer : (Json.loads fer).isSome = true) :
    (Json.loads (llmWrapper llm fe fer)).isSome = true := by
  cases llm with
  | exn => exact hfer
  | resp content =>
    simp only [llmWrapper]
    by_cases ht : content.trim = ""
    · simpa [ht] using hfe
    · simp only [ht, if_neg (by exact ht)]
      cases hj : Json.loads (extract_json_from_response content) with
      | some parsed =>
        obtain ⟨w, hw⟩ := Json.loads_dumps parsed
        simp [hj, hw]
      | none => simp [hj, hfer]

theorem analyze_characters_valid (llm : LLMOutcome) (title author : Option String)
    (text : String) :
    (Json.loads (analyze_characters llm title author text)).isSome = true :=
  llmWrapper_valid llm _ _ loads_FALLBACK_CHARACTERS loads_FALLBACK_CHARACTERS

theorem detect_language_valid (llm : LLMOutcome) (text : String) :
    (Json.loads (detect_language llm text)).isSome = true :=
  llmWrapper_valid llm _ _ loads_FALLBACK_LANGUAGE loads_FALLBACK_LANGUAGE

theorem summarize_plot_valid (llm : LLMOutcome) (title author : Option String)
    (text : String) :
    (Json.loads (summarize_plot llm title author text)).isSome = true :=
  llmWrapper_valid llm _ _ loads_FALLBACK_PLOT_EMPTY loads_FALLBACK_PLOT_ERROR

/-- The `Invalid JSON response` 500 of an analysis handler is unreachable as
long as its LLM wrapper only produces `json.loads`-accepted strings. -/
theorem analysis_endpoint_no_invalid_json (atype errDetail : String)
    (runLLM : Option String → Option String → String → String)
    (hvalid : ∀ t a x, (Json.loads (runLLM t a x)).isSome = true)
    (req : AnalysisRequest) (now : Nat) (s : DBState) :
    (analysis_endpoint atype errDetail runLLM req now s).1 ≠
      AnalysisResp.serverError (errDetail ++ "Invalid JSON response") := by
  cases hb : findBook? s.books req.book_id with
  | none => rw [analysis_endpoint_notFound atype errDetail runLLM now hb]; simp
  | some book =>
    cases ha : findAnalysis? s.analyses book.id atype with
    | some cached => rw [analysis_endpoint_cached atype errDetail runLLM now hb ha]; simp
    | none =>
      cases hc : book.content with
      | none =>
        simp only [analysis_endpoint, hb, ha, hc]
        intro hcontra
        have heq : errDetail ++ "TypeError: NoneType object is not subscriptable" =
            errDetail ++ "Invalid JSON response" := by injection hcontra
        have hlen := congrArg String.length heq
        rw [String.length_append, String.length_append] at hlen
        have h47 : ("TypeError: NoneType object is not subscriptable" : String).length = 47 := by
          decide
        have h21 : ("Invalid JSON response" : String).length = 21 := by decide
        rw [h47, h21] at hlen
        omega
      | some text =>
        cases hj : Json.loads (runLLM book.title book.author text) with
        | none =>
          have := hvalid book.title book.author text
          rw [hj] at this
          simp at this
        | some rj =>
          rw [analysis_endpoint_fresh atype errDetail runLLM now hb ha hc hj]
          simp

/-- The analysis handlers read only `book_id` from the request body. -/
theorem analysis_endpoint_req_eq {r1 r2 : AnalysisRequest} (h : r1.book_id = r2.book_id)
    (atype errDetail : String) (runLLM : Option String → Option String → String → String)
    (now : Nat) (s : DBState) :
    analysis_endpoint atype errDetail runLLM r1 now s =
      analysis_endpoint atype errDetail runLLM r2 now s := by
  simp only [analysis_endpoint, h]

/-! ## Sample data for the witnesses -/

/-- A stored book row used by concrete witnesses. -/
def sampleBook : BookRow :=
  { id := 1, book_id := "11", title := some "T", author := some "A",
    language := some "en", download_count := some 5, content := some "text",
    created_at := 0 }

/-- A cached characters analysis row for `sampleBook`. -/
def sampleAnalysis : AnalysisRow :=
  { id := 1, book_id := 1, analysis_type := "characters",
    result := Json.obj [("characters", Json.arr [])], created_at := 0 }

/-- A store holding just `sampleBook`. -/
def sampleStateB : DBState :=
  { books := [sampleBook], analyses := [], next_book_pk := 2, next_analysis_pk := 1 }

/-- A store holding `sampleBook` and its cached characters analysis. -/
def sampleStateBA : DBState :=
  { books := [sampleBook], analyses := [sampleAnalysis], next_book_pk := 2,
    next_analysis_pk := 2 }

/-- A scraped metadata sample. -/
def sampleMeta : Metadata :=
  { title := some "T", author := some "A", language := some "en", download_count := some 5 }

/-- The book data `get_book_data` assembles from `sampleMeta` and a 200
response with body `"text"`. -/
def sampleData : BookData :=
  { title := some "T", author := some "A", language := some "en",
    download_count := some 5, content := "text", book_id := "11" }

/-! ## Claims -/

/-- C1: for every get-book request, a stored row with the requested catalog
id is returned as-is — independent of the archive environment and with no
write — and an absent id whose archive fetch succeeds leads to exactly one
new row, holding the fetched title, author, language, download count and
content, being persisted and returned. -/
theorem C1_get_book_cache_or_fetch :
    (∀ (s : DBState) (bid : String) (book : BookRow) (c : List HttpOutcome)
       (m : Option Metadata) (now : Nat),
       findBook? s.books bid = some book →
       get_book bid c m now s = (BookResp.ok book, s)) ∧
    (∀ (s : DBState) (bid : String) (c : List HttpOutcome) (m : Option Metadata)
       (d : BookData) (now : Nat),
       findBook? s.books bid = none → get_book_data bid c m = some d →
       ∃ row, get_book bid c m now s = (BookResp.ok row, insertBook s row) ∧
         row.book_id = bid ∧ row.title = d.title ∧ row.author = d.author ∧
         row.language = d.language ∧ row.download_count = d.download_count ∧
         row.content = some d.content) := by
  constructor
  · intro s bid book c m now hb
    exact get_book_found hb c m now
  · intro s bid c m d now hb hd
    exact ⟨mkBookRow bid d s.next_book_pk now, get_book_fetched hb hd now,
      rfl, rfl, rfl, rfl, rfl, rfl⟩

theorem C1_witness :
    (findBook? sampleStateBA.books "11" = some sampleBook ∧
      get_book "11" [] none 9 sampleStateBA = (BookResp.ok sampleBook, sampleStateBA)) ∧
    (findBook? initState.books "11" = none ∧
      get_book_data "11" [HttpOutcome.resp 200 "text"] (some sampleMeta) = some sampleData ∧
      ∃ row, get_book "11" [HttpOutcome.resp 200 "text"] (some sampleMeta) 3 initState =
          (BookResp.ok row, insertBook initState row) ∧
        row.book_id = "11" ∧ row.title = sampleData.title ∧ row.author = sampleData.author ∧
        row.language = sampleData.language ∧
        row.download_count = sampleData.download_count ∧
        row.content = some sampleData.content) :=
  ⟨⟨rfl, C1_get_book_cache_or_fetch.1 sampleStateBA "11" sampleBook [] none 9 rfl⟩,
   ⟨rfl, rfl, C1_get_book_cache_or_fetch.2 initState "11" [HttpOutcome.resp 200 "text"]
      (some sampleMeta) sampleData 3 rfl rfl⟩⟩

/-- C2: with a cached row for (book, kind), each analysis handler returns
exactly the stored result with no write (for any LLM environment and clock,
so no LLM call is consulted); consequently re-running any handler after a
successful run returns the same result and leaves the state unchanged. -/
theorem C2_analysis_cached_idempotent :
    (∀ (s : DBState) (req : AnalysisRequest) (book : BookRow) (cached : AnalysisRow)
       (llm : LLMOutcome) (now : Nat),
       findBook? s.books req.book_id = some book →
       findAnalysis? s.analyses book.id "characters" = some cached →
       get_characters_analysis req llm now s = (AnalysisResp.ok cached.result, s)) ∧
    (∀ (s : DBState) (req : AnalysisRequest) (book : BookRow) (cached : AnalysisRow)
       (llm : LLMOutcome) (now : Nat),
       findBook? s.books req.book_id = some book →
       findAnalysis? s.analyses book.id "language" = some cached →
       get_language_analysis req llm now s = (AnalysisResp.ok cached.result, s)) ∧
    (∀ (s : DBState) (req : AnalysisRequest) (book : BookRow) (cached : AnalysisRow)
       (llm : LLMOutcome) (now : Nat),
       findBook? s.books req.book_id = some book →
       findAnalysis? s.analyses book.id "plot" = some cached →
       get_plot_analysis req llm now s = (AnalysisResp.ok cached.result, s)) ∧
    (∀ (s s1 : DBState) (req : AnalysisRequest) (rj : Json) (llm llm2 : LLMOutcome)
       (now now2 : Nat),
       get_characters_analysis req llm now s = (AnalysisResp.ok rj, s1) →
       get_characters_analysis req llm2 now2 s1 = (AnalysisResp.ok rj, s1)) ∧
    (∀ (s s1 : DBState) (req : AnalysisRequest) (rj : Json) (llm llm2 : LLMOutcome)
       (now now2 : Nat),
       get_language_analysis req llm now s = (AnalysisResp.ok rj, s1) →
       get_language_analysis req llm2 now2 s1 = (AnalysisResp.ok rj, s1)) ∧
    (∀ (s s1 : DBState) (req : AnalysisRequest) (rj : Json) (llm llm2 : LLMOutcome)
       (now now2 : Nat),
       get_plot_analysis req llm now s = (AnalysisResp.ok rj, s1) →
       get_plot_analysis req llm2 now2 s1 = (AnalysisResp.ok rj, s1)) := by
  refine ⟨?_, ?_, ?_, ?_, ?_, ?_⟩
  · intro s req book cached llm now hb ha
    exact analysis_endpoint_cached _ _ _ now hb ha
  · intro s req book cached llm now hb ha
    exact analysis_endpoint_cached _ _ _ now hb ha
  · intro s req book cached llm now hb ha
    exact analysis_endpoint_cached _ _ _ now hb ha
  · intro s s1 req rj llm llm2 now now2 h
    exact analysis_endpoint_rerun _ _ _ _ now now2 h
  · intro s s1 req rj llm llm2 now now2 h
    exact analysis_endpoint_rerun _ _ _ _ now now2 h
  · intro s s1 req rj llm llm2 now now2 h
    exact analysis_endpoint_rerun _ _ _ _ now now2 h

theorem C2_witness :
    (findBook? sampleStateBA.books "11" = some sampleBook ∧
      findAnalysis? sampleStateBA.analyses sampleBook.id "characters" = some sampleAnalysis ∧
      get_characters_analysis ⟨"11", "x"⟩ LLMOutcome.exn 9 sampleStateBA =
        (AnalysisResp.ok sampleAnalysis.result, sampleStateBA)) ∧
    (get_characters_analysis ⟨"11", "x"⟩ LLMOutcome.exn 9 sampleStateBA =
        (AnalysisResp.ok sampleAnalysis.result, sampleStateBA) ∧
      get_characters_analysis ⟨"11", "x"⟩ (LLMOutcome.resp "junk") 10 sampleStateBA =
        (AnalysisResp.ok sampleAnalysis.result, sampleStateBA)) :=
  ⟨⟨rfl, rfl, C2_analysis_cached_idempotent.1 sampleStateBA ⟨"11", "x"⟩ sampleBook
      sampleAnalysis LLMOutcome.exn 9 rfl rfl⟩,
   ⟨C2_analysis_cached_idempotent.1 sampleStateBA ⟨"11", "x"⟩ sampleBook
      sampleAnalysis LLMOutcome.exn 9 rfl rfl,
    C2_analysis_cached_idempotent.2.2.2.1 sampleStateBA sampleStateBA ⟨"11", "x"⟩
      sampleAnalysis.result LLMOutcome.exn (LLMOutcome.resp "junk") 9 10
      (C2_analysis_cached_idempotent.1 sampleStateBA ⟨"11", "x"⟩ sampleBook
        sampleAnalysis LLMOutcome.exn 9 rfl rfl)⟩⟩

/-- C3: in every API-reachable state there is at most one analysis row per
(book, kind) pair, and every stored kind is one of exactly characters,
language, plot. -/
theorem C3_analysis_unique_kinds (s : DBState) (h : Reachable s) :
    s.analyses.Pairwise
      (fun a1 a2 => ¬(a1.book_id = a2.book_id ∧ a1.analysis_type = a2.analysis_type)) ∧
    ∀ a ∈ s.analyses, a.analysis_type ∈ analysisKinds :=
  ⟨(reachable_DBInv h).an_uniq, (reachable_DBInv h).an_kind⟩

theorem C3_witness :
    (get_characters_analysis ⟨"11", "x"⟩ LLMOutcome.exn 1
        (get_book "11" [HttpOutcome.resp 200 "text"] (some sampleMeta) 0 initState).2).2.analyses.Pairwise
      (fun a1 a2 => ¬(a1.book_id = a2.book_id ∧ a1.analysis_type = a2.analysis_type)) ∧
    ∀ a ∈ (get_characters_analysis ⟨"11", "x"⟩ LLMOutcome.exn 1
        (get_book "11" [HttpOutcome.resp 200 "text"] (some sampleMeta) 0 initState).2).2.analyses,
      a.analysis_type ∈ analysisKinds :=
  C3_analysis_unique_kinds _
    (Relation.ReflTransGen.tail
      (Relation.ReflTransGen.tail Relation.ReflTransGen.refl
        (Step.getBook "11" [HttpOutcome.resp 200 "text"] (some sampleMeta) 0 initState))
      (Step.characters ⟨"11", "x"⟩ LLMOutcome.exn 1 _))

/-- C4 counterexample: with a stored book, no cached row, and a failing LLM
call, the characters handler returns 200 with the fallback result and
persists an Analysis row — it does not return an error code, and it does
persist. -/
theorem C4_counterexample :
    (get_characters_analysis ⟨"11", "characters"⟩ LLMOutcome.exn 7 sampleStateB).1 =
      AnalysisResp.ok (Json.obj [("characters", Json.arr [])]) ∧
    sampleStateB.analyses = [] ∧
    (get_characters_analysis ⟨"11", "characters"⟩ LLMOutcome.exn 7 sampleStateB).2.analyses =
      [mkAnalysisRow 1 1 "characters" (Json.obj [("characters", Json.arr [])]) 7] :=
  ⟨rfl, rfl, rfl⟩

/-- C4 amended: for every analysis request on an existing book (with content)
and no cached result, a failing LLM call is swallowed by the wrapper: the
handler persists an Analysis row holding the kind-specific fallback document
and returns it successfully — no error code is returned. -/
theorem C4_amended_llm_failure_stores_fallback :
    (∀ (s : DBState) (req : AnalysisRequest) (book : BookRow) (text : String) (now : Nat),
       findBook? s.books req.book_id = some book →
       findAnalysis? s.analyses book.id "characters" = none →
       book.content = some text →
       ∃ rj, Json.loads FALLBACK_CHARACTERS = some rj ∧
         get_characters_analysis req LLMOutcome.exn now s =
           (AnalysisResp.ok rj,
            insertAnalysis s (mkAnalysisRow s.next_analysis_pk book.id "characters" rj now))) ∧
    (∀ (s : DBState) (req : AnalysisRequest) (book : BookRow) (text : String) (now : Nat),
       findBook? s.books req.book_id = some book →
       findAnalysis? s.analyses book.id "language" = none →
       book.content = some text →
       ∃ rj, Json.loads FALLBACK_LANGUAGE = some rj ∧
         get_language_analysis req LLMOutcome.exn now s =
           (AnalysisResp.ok rj,
            insertAnalysis s (mkAnalysisRow s.next_analysis_pk book.id "language" rj now))) ∧
    (∀ (s : DBState) (req : AnalysisRequest) (book : BookRow) (text : String) (now : Nat),
       findBook? s.books req.book_id = some book →
       findAnalysis? s.analyses book.id "plot" = none →
       book.content = some text →
       ∃ rj, Json.loads FALLBACK_PLOT_ERROR = some rj ∧
         get_plot_analysis req LLMOutcome.exn now s =
           (AnalysisResp.ok rj,
            insertAnalysis s (mkAnalysisRow s.next_analysis_pk book.id "plot" rj now))) := by
  refine ⟨?_, ?_, ?_⟩
  · intro s req book text now hb ha hc
    cases hj : Json.loads FALLBACK_CHARACTERS with
    | none => exact absurd loads_FALLBACK_CHARACTERS (by simp [hj])
    | some rj => exact ⟨rj, rfl, analysis_endpoint_fresh _ _ _ now hb ha hc hj⟩
  · intro s req book text now hb ha hc
    cases hj : Json.loads FALLBACK_LANGUAGE with
    | none => exact absurd loads_FALLBACK_LANGUAGE (by simp [hj])
    | some rj => exact ⟨rj, rfl, analysis_endpoint_fresh _ _ _ now hb ha hc hj⟩
  · intro s req book text now hb ha hc
    cases hj : Json.loads FALLBACK_PLOT_ERROR with
    | none => exact absurd loads_FALLBACK_PLOT_ERROR (by simp [hj])
    | some rj => exact ⟨rj, rfl, analysis_endpoint_fresh _ _ _ now hb ha hc hj⟩

theorem C4_witness :
    findBook? sampleStateB.books "11" = some sampleBook ∧
    findAnalysis? sampleStateB.analyses sampleBook.id "characters" = none ∧
    sampleBook.content = some "text" ∧
    ∃ rj, Json.loads FALLBACK_CHARACTERS = some rj ∧
      get_characters_analysis ⟨"11", "x"⟩ LLMOutcome.exn 7 sampleStateB =
        (AnalysisResp.ok rj,
         insertAnalysis sampleStateB
           (mkAnalysisRow sampleStateB.next_analysis_pk sampleBook.id "characters" rj 7)) :=
  ⟨rfl, rfl, rfl,
   C4_amended_llm_failure_stores_fallback.1 sampleStateB ⟨"11", "x"⟩ sampleBook "text" 7
     rfl rfl rfl⟩

/-- C5: no API step removes or modifies an existing Book row (the same row
value is still stored after the step), and in every reachable state no two
Book rows share a catalog id. -/
theorem C5_books_immutable_unique :
    (∀ (s s1 : DBState), Step s s1 → ∀ b ∈ s.books, b ∈ s1.books) ∧
    (∀ s : DBState, Reachable s →
      s.books.Pairwise (fun b1 b2 => b1.book_id ≠ b2.book_id)) := by
  constructor
  · intro s s1 hstep b hb
    cases hstep with
    | getBook bid c m now s =>
      rcases get_book_cases bid c m now s with heq | ⟨_, d, _, heq⟩
      · rwa [heq]
      · rw [heq]
        simp only [insertBook]
        exact List.mem_append_left _ hb
    | characters req llm now s =>
      rw [show (get_characters_analysis req llm now s).2.books = s.books from
        analysis_endpoint_books _ _ _ req now s]
      exact hb
    | language req llm now s =>
      rw [show (get_language_analysis req llm now s).2.books = s.books from
        analysis_endpoint_books _ _ _ req now s]
      exact hb
    | plot req llm now s =>
      rw [show (get_plot_analysis req llm now s).2.books = s.books from
        analysis_endpoint_books _ _ _ req now s]
      exact hb
    | readOnly s => exact hb
  · intro s h
    exact (reachable_DBInv h).book_cid_uniq

theorem C5_witness :
    (sampleBook ∈ (get_characters_analysis ⟨"11", "x"⟩ LLMOutcome.exn 7 sampleStateB).2.books) ∧
    (get_book "11" [HttpOutcome.resp 200 "text"] (some sampleMeta) 0 initState).2.books.Pairwise
      (fun b1 b2 => b1.book_id ≠ b2.book_id) :=
  ⟨C5_books_immutable_unique.1 sampleStateB _
     (Step.characters ⟨"11", "x"⟩ LLMOutcome.exn 7 sampleStateB) sampleBook
     (List.mem_singleton.mpr rfl),
   C5_books_immutable_unique.2 _
     (Relation.ReflTransGen.tail Relation.ReflTransGen.refl
       (Step.getBook "11" [HttpOutcome.resp 200 "text"] (some sampleMeta) 0 initState))⟩

/-- C6: each analysis handler 404s exactly when no Book row with the
requested catalog id exists, and the get-book handler 404s exactly when the
book is absent and the archive fetch yields nothing; in both cases the store
is unchanged. -/
theorem C6_notFound_characterization :
    (∀ (req : AnalysisRequest) (llm : LLMOutcome) (now : Nat) (s : DBState),
       ((∃ msg, (get_characters_analysis req llm now s).1 = AnalysisResp.notFound msg) ↔
         findBook? s.books req.book_id = none) ∧
       (findBook? s.books req.book_id = none →
         (get_characters_analysis req llm now s).2 = s)) ∧
    (∀ (req : AnalysisRequest) (llm : LLMOutcome) (now : Nat) (s : DBState),
       ((∃ msg, (get_language_analysis req llm now s).1 = AnalysisResp.notFound msg) ↔
         findBook? s.books req.book_id = none) ∧
       (findBook? s.books req.book_id = none →
         (get_language_analysis req llm now s).2 = s)) ∧
    (∀ (req : AnalysisRequest) (llm : LLMOutcome) (now : Nat) (s : DBState),
       ((∃ msg, (get_plot_analysis req llm now s).1 = AnalysisResp.notFound msg) ↔
         findBook? s.books req.book_id = none) ∧
       (findBook? s.books req.book_id = none →
         (get_plot_analysis req llm now s).2 = s)) ∧
    (∀ (bid : String) (c : List HttpOutcome) (m : Option Metadata) (now : Nat) (s : DBState),
       ((∃ msg, (get_book bid c m now s).1 = BookResp.notFound msg) ↔
         (findBook? s.books bid = none ∧ get_book_data bid c m = none)) ∧
       (findBook? s.books bid = none → get_book_data bid c m = none →
         (get_book bid c m now s).2 = s)) := by
  refine ⟨?_, ?_, ?_, ?_⟩
  · intro req llm now s
    refine ⟨analysis_endpoint_notFound_iff _ _ _ req now s, fun hb => ?_⟩
    rw [show get_characters_analysis req llm now s = _ from
      analysis_endpoint_notFound _ _ _ now hb]
  · intro req llm now s
    refine ⟨analysis_endpoint_notFound_iff _ _ _ req now s, fun hb => ?_⟩
    rw [show get_language_analysis req llm now s = _ from
      analysis_endpoint_notFound _ _ _ now hb]
  · intro req llm now s
    refine ⟨analysis_endpoint_notFound_iff _ _ _ req now s, fun hb => ?_⟩
    rw [show get_plot_analysis req llm now s = _ from
      analysis_endpoint_notFound _ _ _ now hb]
  · intro bid c m now s
    refine ⟨get_book_notFound_iff bid c m now s, fun hb hd => ?_⟩
    rw [get_book_notFound hb hd now]

theorem C6_witness :
    ((∃ msg, (get_characters_analysis ⟨"404", "x"⟩ LLMOutcome.exn 0 sampleStateB).1 =
        AnalysisResp.notFound msg) ↔ findBook? sampleStateB.books "404" = none) ∧
    (get_characters_analysis ⟨"404", "x"⟩ LLMOutcome.exn 0 sampleStateB).2 = sampleStateB ∧
    (get_book "404" [HttpOutcome.exn, HttpOutcome.exn, HttpOutcome.exn] none 0
      sampleStateB).2 = sampleStateB :=
  ⟨(C6_notFound_characterization.1 ⟨"404", "x"⟩ LLMOutcome.exn 0 sampleStateB).1,
   (C6_notFound_characterization.1 ⟨"404", "x"⟩ LLMOutcome.exn 0 sampleStateB).2 rfl,
   (C6_notFound_characterization.2.2.2 "404"
     [HttpOutcome.exn, HttpOutcome.exn, HttpOutcome.exn] none 0 sampleStateB).2 rfl rfl⟩

/-- C7: deleting a Book (ORM cascade) deletes every Analysis row referencing
it, and referential integrity is preserved: afterwards no Analysis row
references the deleted book or any nonexistent book. -/
theorem C7_delete_book_cascade :
    ∀ (s : DBState) (pk : Nat),
      (∀ a ∈ s.analyses, ∃ b ∈ s.books, b.id = a.book_id) →
      (∀ a ∈ (delete_book pk s).analyses, a.book_id ≠ pk) ∧
      (∀ a ∈ (delete_book pk s).analyses,
        ∃ b ∈ (delete_book pk s).books, b.id = a.book_id) := by
  intro s pk href
  constructor
  · intro a ha
    simp only [delete_book, List.mem_filter, Bool.not_eq_true', beq_eq_false_iff_ne] at ha
    exact ha.2
  · intro a ha
    simp only [delete_book, List.mem_filter, Bool.not_eq_true', beq_eq_false_iff_ne] at ha ⊢
    obtain ⟨hmem, hne⟩ := ha
    obtain ⟨b, hbmem, hbid⟩ := href a hmem
    exact ⟨b, ⟨hbmem, by rw [hbid]; exact hne⟩, hbid⟩

theorem C7_witness :
    (∀ a ∈ sampleStateBA.analyses, ∃ b ∈ sampleStateBA.books, b.id = a.book_id) ∧
    (∀ a ∈ (delete_book 1 sampleStateBA).analyses, a.book_id ≠ 1) ∧
    (∀ a ∈ (delete_book 1 sampleStateBA).analyses,
      ∃ b ∈ (delete_book 1 sampleStateBA).books, b.id = a.book_id) :=
  have href : ∀ a ∈ sampleStateBA.analyses, ∃ b ∈ sampleStateBA.books, b.id = a.book_id := by
    intro a ha
    simp only [sampleStateBA, List.mem_singleton] at ha
    subst ha
    exact ⟨sampleBook, List.mem_singleton.mpr rfl, rfl⟩
  ⟨href, C7_delete_book_cascade sampleStateBA 1 href⟩

/-- C8: every result of the three LLM wrappers is a string `json.loads`
accepts (re-serialized extracted output or a fixed fallback literal), so the
`Invalid JSON response` 500 branch of each analysis handler is unreachable. -/
theorem C8_llm_json_always_valid :
    (∀ (llm : LLMOutcome) (title author : Option String) (text : String),
       (Json.loads (analyze_characters llm title author text)).isSome = true) ∧
    (∀ (llm : LLMOutcome) (text : String),
       (Json.loads (detect_language llm text)).isSome = true) ∧
    (∀ (llm : LLMOutcome) (title author : Option String) (text : String),
       (Json.loads (summarize_plot llm title author text)).isSome = true) ∧
    (∀ (req : AnalysisRequest) (llm : LLMOutcome) (now : Nat) (s : DBState),
       (get_characters_analysis req llm now s).1 ≠
         AnalysisResp.serverError "Error processing character analysis: Invalid JSON response") ∧
    (∀ (req : AnalysisRequest) (llm : LLMOutcome) (now : Nat) (s : DBState),
       (get_language_analysis req llm now s).1 ≠
         AnalysisResp.serverError "Error processing language analysis: Invalid JSON response") ∧
    (∀ (req : AnalysisRequest) (llm : LLMOutcome) (now : Nat) (s : DBState),
       (get_plot_analysis req llm now s).1 ≠
         AnalysisResp.serverError "Error processing plot summary: Invalid JSON response") := by
  refine ⟨analyze_characters_valid, detect_language_valid, summarize_plot_valid, ?_, ?_, ?_⟩
  · intro req llm now s
    exact analysis_endpoint_no_invalid_json "characters"
      "Error processing character analysis: " _
      (fun t a x => analyze_characters_valid llm t a x) req now s
  · intro req llm now s
    exact analysis_endpoint_no_invalid_json "language"
      "Error processing language analysis: " _
      (fun t a x => detect_language_valid llm x) req now s
  · intro req llm now s
    exact analysis_endpoint_no_invalid_json "plot"
      "Error processing plot summary: " _
      (fun t a x => summarize_plot_valid llm t a x) req now s

theorem C8_witness :
    (Json.loads (analyze_characters LLMOutcome.exn (some "T") (some "A") "text")).isSome =
      true ∧
    (Json.loads (detect_language (LLMOutcome.resp "no json here") "text")).isSome = true ∧
    (Json.loads (summarize_plot (LLMOutcome.resp "  ") (some "T") none "text")).isSome =
      true ∧
    (get_characters_analysis ⟨"11", "x"⟩ LLMOutcome.exn 7 sampleStateB).1 ≠
      AnalysisResp.serverError "Error processing character analysis: Invalid JSON response" :=
  ⟨C8_llm_json_always_valid.1 LLMOutcome.exn (some "T") (some "A") "text",
   C8_llm_json_always_valid.2.1 (LLMOutcome.resp "no json here") "text",
   C8_llm_json_always_valid.2.2.1 (LLMOutcome.resp "  ") (some "T") none "text",
   C8_llm_json_always_valid.2.2.2.1 ⟨"11", "x"⟩ LLMOutcome.exn 7 sampleStateB⟩

/-- C9: a fetched book text whose UTF-8 encoding exceeds 8*1024*1024 bytes is
returned truncated to exactly its first 7500000 characters, and any other
fetched text is returned unmodified. -/
theorem C9_fetch_truncation (t : String) (rest : List HttpOutcome) :
    fetch_book_content (HttpOutcome.resp 200 t :: rest) =
      some (if 8 * 1024 * 1024 < utf8Len t then t.take 7500000 else t) := by
  simp [fetch_book_content, truncateContent, MAX_CONTENT_SIZE]

/-- C10: no analysis handler reads the `analysis_type` field of the request
body: two requests naming the same book produce identical responses and
identical state changes on every handler. -/
theorem C10_analysis_type_unread :
    ∀ (r1 r2 : AnalysisRequest), r1.book_id = r2.book_id →
    ∀ (llm : LLMOutcome) (now : Nat) (s : DBState),
      get_characters_analysis r1 llm now s = get_characters_analysis r2 llm now s ∧
      get_language_analysis r1 llm now s = get_language_analysis r2 llm now s ∧
      get_plot_analysis r1 llm now s = get_plot_analysis r2 llm now s := by
  intro r1 r2 h llm now s
  exact ⟨analysis_endpoint_req_eq h _ _ _ now s, analysis_endpoint_req_eq h _ _ _ now s,
    analysis_endpoint_req_eq h _ _ _ now s⟩

theorem C10_witness :
    get_characters_analysis ⟨"11", "characters"⟩ LLMOutcome.exn 7 sampleStateBA =
      get_characters_analysis ⟨"11", "plot"⟩ LLMOutcome.exn 7 sampleStateBA ∧
    get_language_analysis ⟨"11", "characters"⟩ LLMOutcome.exn 7 sampleStateBA =
      get_language_analysis ⟨"11", "plot"⟩ LLMOutcome.exn 7 sampleStateBA ∧
    get_plot_analysis ⟨"11", "characters"⟩ LLMOutcome.exn 7 sampleStateBA =
      get_plot_analysis ⟨"11", "plot"⟩ LLMOutcome.exn 7 sampleStateBA :=
  C10_analysis_type_unread ⟨"11", "characters"⟩ ⟨"11", "plot"⟩ rfl LLMOutcome.exn 7
    sampleStateBA
